import Mathlib

/-!
# Spark client/server: file transfer, archive pipeline, terminal registry, screenshot bridge

A shallow embedding of the parts of
`client/service/file/file.go`, `client/service/terminal/terminal_others.go` and
`server/handler/screenshot.go` that the properties below are about, followed by
the theorems.  Bytes are natural numbers, buffers are lists, stateful code is
explicit state passing, goroutines are interleaved by an explicit schedule.
-/

namespace Spark

/-! ## `gbkValidate` (file.go) -/

/-- The condition of the inner `if` of `gbkValidate`:
`b[i] >= 0x81 && b[i] <= 0xfe && b[i+1] >= 0x40 && b[i+1] <= 0xfe && b[i+1] != 0xf7`. -/
def gbkPair (lead trail : Nat) : Bool :=
  decide (0x81 ≤ lead) && decide (lead ≤ 0xfe) && decide (0x40 ≤ trail) &&
    decide (trail ≤ 0xfe) && decide (trail ≠ 0xf7)

/-- The `for i < length` loop of `gbkValidate`, started at index `i`.  One unit
of fuel is one iteration; running out of fuel is reported as `none`. -/
def gbkLoop (b : List Nat) : Nat → Nat → Option Bool
  | 0, _ => none
  | fuel + 1, i =>
    if i < b.length then
      if b.getD i 0 ≤ 0x7f then
        gbkLoop b fuel (i + 1)
      else if i + 1 < b.length then
        if gbkPair (b.getD i 0) (b.getD (i + 1) 0) then
          gbkLoop b fuel (i + 2)
        else
          some false
      else
        some false
    else
      some true

/-- `gbkValidate(b)`: the loop from index 0.  The index grows in every
iteration, so `len(b) + 1` iterations are enough (`gbkLoop_eq_scan`). -/
def gbkValidate (b : List Nat) : Bool :=
  (gbkLoop b (b.length + 1) 0).getD false

/-- The scan of `gbkValidate` read off the remaining suffix of the buffer
(an auxiliary view of the same loop, used in the proofs). -/
def gbkScan : List Nat → Bool
  | [] => true
  | [x] => decide (x ≤ 0x7f)
  | x :: y :: rest =>
    if x ≤ 0x7f then gbkScan (y :: rest)
    else if gbkPair x y then gbkScan rest
    else false

/-- The buffers the specification describes: concatenations of units, a unit
being one byte `≤ 0x7F`, or a lead byte in `[0x81,0xFE]` followed by a trail
byte in `[0x40,0xFE]` other than `0xF7`. -/
inductive GbkUnits : List Nat → Prop
  | nil : GbkUnits []
  | single (x : Nat) (rest : List Nat) :
      x ≤ 0x7f → GbkUnits rest → GbkUnits (x :: rest)
  | pair (x y : Nat) (rest : List Nat) :
      0x81 ≤ x → x ≤ 0xfe → 0x40 ≤ y → y ≤ 0xfe → y ≠ 0xf7 →
      GbkUnits rest → GbkUnits (x :: y :: rest)

/-! ## `uploadSingle` (file.go) -/

/-- What one `file.Read(buffer)` does, apart from being bounded by the buffer
and by the end of the file: it returns at most `c` bytes (a short read), or it
fails with an I/O error and no bytes. -/
inductive ReadMode
  | upTo (c : Nat)
  | fail
  deriving DecidableEq, Repr

/-- One `file.Read(buffer)` at offset `pos` with `len(buffer) = bufSize`:
the number of bytes read and whether `err != nil`.  A zero-length buffer reads
nothing without error; at the end of the file the read returns `0, io.EOF`. -/
def fileRead (content : List Nat) (pos bufSize : Nat) : ReadMode → Nat × Bool
  | ReadMode.fail => (0, true)
  | ReadMode.upTo c =>
    if bufSize = 0 then (0, false)
    else (min (min bufSize (content.length - pos)) c, decide (content.length - pos = 0))

/-- How the pump goroutine of `uploadSingle` ends. -/
inductive PumpResult
  | outOfFuel
  | panicked
  | closed (written : List Nat)
  deriving DecidableEq, Repr

/-- The goroutine of `uploadSingle`: `shouldRead` bytes are still to be sent,
the file offset is `pos`, `k` reads have been made and `pipe` holds the bytes
written to the pipe so far.  `make([]byte, bufSize)` panics on a negative
size.  The loop ends with `writer.Close()`. -/
def uploadSingleLoop (content : List Nat) (mode : Nat → ReadMode) :
    Nat → Int → Nat → Nat → List Nat → PumpResult
  | 0, _, _, _, _ => PumpResult.outOfFuel
  | fuel + 1, shouldRead, pos, k, pipe =>
    let bufSize : Int := if shouldRead < 32768 then shouldRead else 32768
    if bufSize < 0 then PumpResult.panicked
    else
      let r := fileRead content pos bufSize.toNat (mode k)
      let buffer := (content.drop pos).take r.1
      let shouldRead' := shouldRead - (r.1 : Int)
      let pipe' := pipe ++ buffer
      if r.1 = 0 ∨ shouldRead' = 0 ∨ r.2 = true then PumpResult.closed pipe'
      else uploadSingleLoop content mode fuel shouldRead' (pos + r.1) (k + 1) pipe'

/-- What `uploadSingle` leaves behind when it returns `nil`: the content
length set on the request and the outcome of the pump goroutine. -/
structure SingleUpload where
  contentLength : Int
  pump : PumpResult
  deriving DecidableEq, Repr

/-- `uploadSingle(path, start, end, writer, req)` on a file that opens as
`some content` (`none`: `os.Open` fails).  `file.Seek(start, 0)` leaves the
offset at `start`, or where it was (0) when `start` is negative. -/
def uploadSingle (file : Option (List Nat)) (start stop : Int) (mode : Nat → ReadMode)
    (fuel : Nat) : Except String SingleUpload :=
  match file with
  | none => Except.error "open"
  | some content =>
    let size : Int := content.length
    if size < stop then Except.error "$\x7bi18n|invalidFileSize\x7d"
    else
      let contentLength := if stop = 0 then size - start else stop - start
      let pos := if 0 ≤ start then start.toNat else 0
      Except.ok ⟨contentLength, uploadSingleLoop content mode fuel contentLength pos 0 []⟩

/-! ## `FetchFile` and `getTempFileName` (file.go) -/

/-- The filesystem as a map from path to content (regular files only). -/
abbrev FS := String → Option (List Nat)

/-- `os.Create(p)`: the file exists afterwards and is empty. -/
def FS.create (fs : FS) (p : String) : FS := Function.update fs p (some [])

/-- `fh.Write(data)` on the open file `p`: the bytes are appended. -/
def FS.append (fs : FS) (p : String) (data : List Nat) : FS :=
  match fs p with
  | some c => Function.update fs p (some (c ++ data))
  | none => fs

/-- `fh.Truncate(0)` on the open file `p`. -/
def FS.truncate (fs : FS) (p : String) : FS :=
  match fs p with
  | some _ => Function.update fs p (some [])
  | none => fs

/-- `os.Remove(p)`. -/
def FS.remove (fs : FS) (p : String) : FS := Function.update fs p none

/-- `os.Rename(src, dst)`: `none` when `src` does not exist. -/
def FS.rename (fs : FS) (src dst : String) : Option FS :=
  match fs src with
  | some c => if src = dst then some fs else some (Function.update (Function.update fs dst (some c)) src none)
  | none => none

/-- `path.Join(dir, file)` for components that are already clean. -/
def pathJoin (dir file : String) : String := dir ++ "/" ++ file

/-- The name probed in iteration `i` of `getTempFileName`:
`path.Join(dir, file + ".tmp." + strconv.Itoa(i))`. -/
def tempName (dir file : String) (i : Nat) : String :=
  pathJoin dir (file ++ ".tmp." ++ toString i)

/-- The loop of `getTempFileName`, from index `i`: the first probed name that
`os.Stat` reports as not existing.  `none` when the fuel runs out first. -/
def getTempFileNameFrom (fs : FS) (dir file : String) : Nat → Nat → Option String
  | 0, _ => none
  | fuel + 1, i =>
    if (fs (tempName dir file i)).isNone then some (tempName dir file i)
    else getTempFileNameFrom fs dir file fuel (i + 1)

/-- `getTempFileName(dir, file)`. -/
def getTempFileName (fs : FS) (dir file : String) (fuel : Nat) : Option String :=
  getTempFileNameFrom fs dir file fuel 0

/-- The error of one `resp.Body.Read`: `io.EOF` or another error. -/
inductive BodyErr
  | eof
  | failed (e : String)
  deriving DecidableEq, Repr

/-- One `resp.Body.Read(buf)`: the bytes `buf[:n]` and the error. -/
structure ReadStep where
  data : List Nat
  err : Option BodyErr
  deriving DecidableEq, Repr

/-- The surroundings of one `FetchFile` call: whether the request fails, the
successive results of `resp.Body.Read` (after them every read is `0, io.EOF`),
whether `os.Create` fails, and which `fh.Write` calls fail. -/
structure FetchEnv where
  getErr : Option String
  body : List ReadStep
  createErr : Option String
  writeErr : Nat → Option String

/-- The copy loop of `FetchFile` writing to `tmpFile`; `k` counts the writes,
`tr` collects the filesystem after each write.  `Except.error e` is the
`return err` inside the loop, `Except.ok` the `break`. -/
def fetchLoop (tmpFile : String) (writeErr : Nat → Option String) :
    List ReadStep → Nat → FS → List FS → Except String FS × FS × List FS
  | [], _, fs, tr => (Except.ok fs, fs, tr)
  | r :: rest, k, fs, tr =>
    match r.err with
    | some (BodyErr.failed e) =>
      (Except.error e, ((fs.truncate tmpFile).remove tmpFile), tr)
    | _ =>
      if r.data.length = 0 then (Except.ok fs, fs, tr)
      else
        match writeErr k with
        | some e => (Except.error e, ((fs.truncate tmpFile).remove tmpFile), tr)
        | none =>
          let fs' := fs.append tmpFile r.data
          fetchLoop tmpFile writeErr rest (k + 1) fs' (tr ++ [fs'])

/-- What a `FetchFile` call leaves: the returned error, the filesystem, and
the filesystems seen while the body was being received (after `os.Create` and
after each write). -/
structure FetchOut where
  err : Option String
  fs : FS
  trace : List FS

/-- `FetchFile(dir, file, bridge)`.  `none`: the probing of temporary names
ran out of fuel. -/
def FetchFile (fs : FS) (dir file : String) (env : FetchEnv) (fuel : Nat) : Option FetchOut :=
  match env.getErr with
  | some e => some ⟨some e, fs, []⟩
  | none =>
    let dest := pathJoin dir file
    let destExists := (fs dest).isSome
    let tmp? := if destExists then getTempFileName fs dir file fuel else some dest
    match tmp? with
    | none => none
    | some tmpFile =>
      match env.createErr with
      | some e => some ⟨some e, fs, []⟩
      | none =>
        let fs1 := fs.create tmpFile
        match fetchLoop tmpFile env.writeErr env.body 0 fs1 [fs1] with
        | (Except.error e, fs2, tr) => some ⟨some e, fs2, tr⟩
        | (Except.ok _, fs2, tr) =>
          if destExists then
            match (fs2.remove dest).rename tmpFile dest with
            | some fs3 => some ⟨none, fs3, tr⟩
            | none => some ⟨some "rename", fs2.remove dest, tr⟩
          else some ⟨none, fs2, tr⟩

/-- A read that delivers bytes: `n > 0` and the error is `nil` or `io.EOF`. -/
def ReadStep.delivers (r : ReadStep) : Bool :=
  !r.data.isEmpty &&
    match r.err with
    | some (BodyErr.failed _) => false
    | _ => true

/-- The rest of a body at which the copy loop breaks normally: no read is
left (`0, io.EOF`), or the next read returns no bytes and no error other
than `io.EOF`. -/
def endsStream : List ReadStep → Bool
  | [] => true
  | r :: _ =>
    r.data.isEmpty &&
      match r.err with
      | some (BodyErr.failed _) => false
      | _ => true

/-- The bytes a list of reads delivered, in order. -/
def bytesOf (rs : List ReadStep) : List Nat := (rs.map ReadStep.data).flatten

/-- The filesystem `fs` with the temporary file holding the bytes of `rs`. -/
def withTemp (fs : FS) (tmpFile : String) (rs : List ReadStep) : FS :=
  Function.update fs tmpFile (some (bytesOf rs))

/-- The filesystems after each write of the reads `pre`, `done` having been
written before. -/
def writeSteps (fs : FS) (tmpFile : String) : List ReadStep → List ReadStep → List FS
  | _, [] => []
  | done, r :: pre => withTemp fs tmpFile (done ++ [r]) :: writeSteps fs tmpFile (done ++ [r]) pre

/-- What the filesystems seen while the body is received look like when the
reads `pre` are streamed to `tmpFile`: the first has the temporary file empty,
the last has it holding all bytes of `pre`, and every one of them has the
destination at its old content, the temporary file at the bytes of a prefix of
`pre`, and every other path as in `fs`. -/
def StreamedToTemp (fs : FS) (dest tmpFile : String) (old : List Nat) (pre : List ReadStep)
    (trace : List FS) : Prop :=
  trace.head? = some (Function.update fs tmpFile (some [])) ∧
  trace.getLast? = some (Function.update fs tmpFile (some (bytesOf pre))) ∧
  ∀ st ∈ trace, st dest = some old ∧
    (∃ n, st tmpFile = some (bytesOf (pre.take n))) ∧
    ∀ p, p ≠ tmpFile → st p = fs p

/-- A filesystem for the examples: `d/f` holds three bytes and `d/f.tmp.0` is
already taken. -/
def fetchExampleFS : FS := fun p =>
  if p = "d/f" then some [1, 2, 3] else if p = "d/f.tmp.0" then some [] else none

/-- A body whose second read fails with a non-EOF error. -/
def fetchExampleEnv : FetchEnv :=
  { getErr := none
    body := [⟨[7, 8], none⟩, ⟨[], some (BodyErr.failed "connection reset")⟩]
    createErr := none
    writeErr := fun _ => none }

/-! ## Terminal sessions (terminal.go, terminal_others.go) -/

/-- The `terminal` struct: `lastPack`, `event` and the pseudo-terminal handle
(`none` for a nil `*os.File`). -/
structure Terminal where
  lastPack : Int
  event : String
  pty : Option Nat
  deriving DecidableEq, Repr

/-- The fields of `modules.Packet` the terminal handlers read or set:
`Act`, `Msg`, `Event`, and the entries `input`, `terminal`, `output` (strings)
and `width`, `height` (numbers, already as the `uint16` they are converted to)
of `Data`, each `none` when absent or of another type. -/
structure Packet where
  act : String := ""
  msg : String := ""
  event : String := ""
  input : Option String := none
  terminal : Option String := none
  output : Option String := none
  width : Option Nat := none
  height : Option Nat := none
  deriving DecidableEq, Repr

/-- The state the terminal handlers act on.  `heap` holds the allocated
`terminal` structs (a `*terminal` is an index into it), `terminals` is the
registry from identifier to `*terminal`, `closed` lists the pseudo-terminal
handles that were closed, `sent` the packets sent over the control channel,
`ptyWrites` and `ptySizes` what was written to and set on the handles. -/
structure TermState where
  heap : List Terminal := []
  terminals : List (String × Nat) := []
  closed : List Nat := []
  sent : List Packet := []
  ptyWrites : List (Nat × List Nat) := []
  ptySizes : List (Nat × Nat × Nat) := []
  deriving DecidableEq, Repr

/-- Modelled from the spec: `terminals.Get` of `utils/cmap` (not under src/),
the keyed lookup of the registry. -/
def cmapGet : List (String × Nat) → String → Option Nat
  | [], _ => none
  | (k, v) :: rest, key => if k = key then some v else cmapGet rest key

/-- Modelled from the spec: `terminals.Remove` of `utils/cmap` (not under
src/), the removal of a key from the registry. -/
def cmapRemove (m : List (String × Nat)) (key : String) : List (String × Nat) :=
  m.filter (fun e => !(e.1 == key))

/-- Modelled from the spec: `terminals.Set` of `utils/cmap` (not under src/),
the insertion of a key, replacing an earlier entry of the same key. -/
def cmapSet (m : List (String × Nat)) (key : String) (v : Nat) : List (String × Nat) :=
  (key, v) :: cmapRemove m key

/-- Modelled from the spec: `common.SendCb(resp, pack, conn)` (not under
src/), `sendCallback(message, inResponseTo)`: the message goes out over the
control channel carrying the correlation token of the packet it answers. -/
def sendCb (resp pack : Packet) (s : TermState) : TermState :=
  { s with sent := s.sent ++ [{ resp with event := pack.event }] }

def errDataNotFound : String := "no input found in packet"

def errDataInvalid : String := "can not parse data in packet"

def errUUIDNotFound : String := "can not find terminal identifier"

/-- The 64-bit two's complement value of an integer. -/
def wrap64 (x : Int) : Int := (x + 2 ^ 63) % 2 ^ 64 - 2 ^ 63

/-- One hexadecimal digit, as `encoding/hex` reads it. -/
def hexVal (c : Char) : Option Nat :=
  if '0' ≤ c ∧ c ≤ '9' then some (c.toNat - '0'.toNat)
  else if 'a' ≤ c ∧ c ≤ 'f' then some (c.toNat - 'a'.toNat + 10)
  else if 'A' ≤ c ∧ c ≤ 'F' then some (c.toNat - 'A'.toNat + 10)
  else none

/-- `hex.DecodeString` on the characters of the string: pairs of digits;
an odd length or a character that is no digit is an error. -/
def hexDecodeChars : List Char → Option (List Nat)
  | [] => some []
  | [_] => none
  | a :: b :: rest =>
    match hexVal a, hexVal b, hexDecodeChars rest with
    | some x, some y, some r => some ((16 * x + y) :: r)
    | _, _, _ => none

def hexDecode (s : String) : Option (List Nat) := hexDecodeChars s.data

/-- One digit of `hex.EncodeToString`. -/
def hexDigit (n : Nat) : Char :=
  if n < 10 then Char.ofNat ('0'.toNat + n) else Char.ofNat ('a'.toNat + (n - 10))

/-- `hex.EncodeToString`. -/
def hexEncode (b : List Nat) : String :=
  String.mk (b.flatMap (fun x => [hexDigit (x / 16 % 16), hexDigit (x % 16)]))

/-- The struct at `addr` with `lastPack` set to `now`. -/
def setLastPack (heap : List Terminal) (addr : Nat) (now : Int) : List Terminal :=
  heap.modify (fun t => { t with lastPack := now }) addr

/-- `doKillTerminal`: the handle is closed when it is not nil. -/
def doKillTerminal (t : Terminal) (closed : List Nat) : List Nat :=
  match t.pty with
  | some h => closed ++ [h]
  | none => closed

/-- `InitTerminal(pack)`: `ptyStart` is the handle `pty.Start` returns (`none`
when it fails), `now` is `time.Now().Unix()`.  The pump goroutine it starts is
`pumpStep`, run on the new struct's address with the same `pack`. -/
def InitTerminal (pack : Packet) (ptyStart : Option Nat) (now : Int) (s : TermState) :
    Option String × TermState :=
  match ptyStart with
  | none => (some "pty.Start", s)
  | some h =>
    match pack.terminal with
    | none => (some "panic: interface conversion", s)
    | some uuid =>
      (none, { s with
        heap := s.heap ++ [{ pty := some h, event := pack.event, lastPack := now }]
        terminals := cmapSet s.terminals uuid s.heap.length })

/-- One iteration of the pump goroutine of `InitTerminal` for the struct at
`addr`: `ptySession.Read` returned the bytes `data` and, when `failed`, an
error (EOF included).  The result says whether the loop goes on. -/
def pumpStep (addr : Nat) (pack : Packet) (data : List Nat) (failed : Bool) (now : Int)
    (s : TermState) : TermState × Bool :=
  let s1 := sendCb { act := "outputTerminal", output := some (hexEncode data) } pack s
  let s2 := { s1 with heap := setLastPack s1.heap addr now }
  if failed then (sendCb { act := "quitTerminal" } pack s2, false)
  else (s2, true)

/-- `InputTerminal(pack)`. -/
def InputTerminal (pack : Packet) (now : Int) (s : TermState) : Option String × TermState :=
  match pack.input with
  | none => (some errDataNotFound, s)
  | some val =>
    match hexDecode val with
    | none => (some errDataInvalid, s)
    | some data =>
      match pack.terminal with
      | none => (some errUUIDNotFound, s)
      | some termUUID =>
        match cmapGet s.terminals termUUID with
        | none =>
          (none, sendCb { act := "quitTerminal", msg := "$\x7bi18n|terminalSessionClosed\x7d" }
            pack s)
        | some addr =>
          let s1 := { s with heap := setLastPack s.heap addr now }
          match (s.heap[addr]?).bind Terminal.pty with
          | some h =>
            if h ∈ s.closed then (none, s1)
            else (none, { s1 with ptyWrites := s1.ptyWrites ++ [(h, data)] })
          | none => (none, s1)

/-- `ResizeTerminal(pack)`. -/
def ResizeTerminal (pack : Packet) (s : TermState) : Option String × TermState :=
  match pack.width with
  | none => (some errDataInvalid, s)
  | some width =>
    match pack.height with
    | none => (some errDataInvalid, s)
    | some height =>
      match pack.terminal with
      | none => (some errUUIDNotFound, s)
      | some termUUID =>
        match cmapGet s.terminals termUUID with
        | none =>
          (none, sendCb { act := "quitTerminal", msg := "$\x7bi18n|terminalSessionClosed\x7d" }
            pack s)
        | some addr =>
          match (s.heap[addr]?).bind Terminal.pty with
          | some h =>
            if h ∈ s.closed then (none, s)
            else (none, { s with ptySizes := s.ptySizes ++ [(h, height, width)] })
          | none => (none, s)

/-- `KillTerminal(pack)`. -/
def KillTerminal (pack : Packet) (s : TermState) : Option String × TermState :=
  match pack.terminal with
  | none => (some errUUIDNotFound, s)
  | some termUUID =>
    match cmapGet s.terminals termUUID with
    | none =>
      (none, sendCb { act := "quitTerminal", msg := "$\x7bi18n|terminalSessionClosed\x7d" }
        pack s)
    | some addr =>
      match s.heap[addr]? with
      | some t => (none, { s with closed := doKillTerminal t s.closed })
      | none => (none, s)

/-- `MaxInterval` of `healthCheck`. -/
def MaxInterval : Int := 300

/-- The `terminals.IterCb` callback of `healthCheck` over the entries of the
registry: a session with `timestamp - lastPack > MaxInterval` (in `int64`) is
queued for removal and killed. -/
def healthCheckIter (timestamp : Int) (heap : List Terminal) :
    List (String × Nat) → List String × List Nat → List String × List Nat
  | [], acc => acc
  | (uuid, addr) :: rest, (queue, closed) =>
    match heap[addr]? with
    | some t =>
      if wrap64 (timestamp - t.lastPack) > MaxInterval then
        healthCheckIter timestamp heap rest (queue ++ [uuid], doKillTerminal t closed)
      else healthCheckIter timestamp heap rest (queue, closed)
    | none => healthCheckIter timestamp heap rest (queue, closed)

/-- One tick of `healthCheck` at `now.Unix() = timestamp`: the iteration, then
`terminals.Remove` for every queued identifier. -/
def healthCheck (timestamp : Int) (s : TermState) : TermState :=
  let r := healthCheckIter timestamp s.heap s.terminals ([], s.closed)
  { s with terminals := r.1.foldl cmapRemove s.terminals, closed := r.2 }

/-- Whether the registry entry `e` is idle at `timestamp`: the test of the
`healthCheck` callback (auxiliary, used in the proofs). -/
def idleEntry (timestamp : Int) (heap : List Terminal) (e : String × Nat) : Bool :=
  match heap[e.2]? with
  | some t => decide (wrap64 (timestamp - t.lastPack) > MaxInterval)
  | none => false

/-- The handles `doKillTerminal` closes for the given entries (auxiliary). -/
def killedHandles (heap : List Terminal) : List (String × Nat) → List Nat
  | [] => []
  | e :: rest =>
    match (heap[e.2]?).bind Terminal.pty with
    | some h => h :: killedHandles heap rest
    | none => killedHandles heap rest

/-- A packet that names the terminal `t1` and carries the hex input `6c730a`. -/
def termExamplePacket : Packet :=
  { event := "ev", terminal := some "t1", input := some "6c730a" }

/-- A registry with two sessions: `old` last active at 1000, `fresh` at 1200. -/
def termExampleState : TermState :=
  { heap := [⟨1000, "e1", some 7⟩, ⟨1200, "e2", some 8⟩]
    terminals := [("old", 0), ("fresh", 1)] }

/-! ## `uploadMulti` (file.go)

The goroutines of `uploadMulti` are interleaved by an explicit schedule.  The
closures `archiveFile`, `scanDir`, `handleJob` and `pushItems` act on the
shared variables `fails`, `escape`, `queue` and `lock`.  Slices are lists (the
sharing of a backing array between slices is not modelled), the `FileName`
header is left out, and a panic (a send on the closed queue) is counted and
ends the goroutine it happens in. -/

/-- What `os.FileInfo` gives: `Name()` and `IsDir()`. -/
structure FileInfo where
  name : String
  isDir : Bool
  deriving DecidableEq, Repr

/-- The filesystem and the pipe as `uploadMulti` meets them: the result of
`os.Stat` and of `ioutil.ReadDir` (`none`: error), the content `os.Open` gives
access to (`none`: error), the index of the `file.Read` that fails with an
error other than `io.EOF` (`none`: no read fails), and whether
`zipWriter.Create` fails for a name. -/
structure MultiEnv where
  stat : String → Option FileInfo
  readDir : String → Option (List FileInfo)
  openFile : String → Option (List Nat)
  readErr : String → Option Nat
  createErr : String → Bool

/-- The local type `Job`. -/
structure Job where
  info : FileInfo
  path : String
  hierarchy : List String
  deriving DecidableEq, Repr

/-- `const QueueSize = 64`. -/
def QueueSize : Nat := 64

/-- Where a goroutine that sends jobs stands (`pushItems` run with `go`, or
the goroutine `scanDir` starts for its spare jobs): before `lock.Lock()` or,
holding the lock, before `queue <- job`. -/
inductive SendPC
  | atLock
  | atSend
  deriving DecidableEq, Repr

/-- The goroutine `go pushItems(items)`: at the head of its loop with the
items left, between `os.Stat` and the unlock for the item at hand, or
finished. -/
inductive SeederPC
  | loopHead (items : List String)
  | sending (pc : SendPC) (job : Job) (rest : List String)
  | finished
  deriving DecidableEq, Repr

/-- The consumer goroutine (the last `go func()` of `uploadMulti`). -/
inductive ConsumerPC
  | loopHead
  | atSelect
  | handle (job : Job)
  | scan (job : Job) (entries : List FileInfo) (spare : List Job)
  | afterHandle
  | recvDiscard
  | tail
  | finalize
  | finished
  deriving DecidableEq, Repr

/-- The variables shared by the goroutines of one `uploadMulti` call, the
archive written so far, and where each goroutine stands.  `writesLeft` is the
number of `fileWriter.Write` calls that still succeed (`none`: all do);
`spares` holds, for every goroutine started by `scanDir`, where it stands and
the jobs it still has to send. -/
structure MultiState where
  fails : List String := []
  escape : Bool := false
  queue : List Job := []
  queueClosed : Bool := false
  lockHeld : Bool := false
  entries : List (String × List Nat) := []
  comment : Option String := none
  zipClosed : Bool := false
  pipeClosed : Bool := false
  writesLeft : Option Nat := none
  seeder : SeederPC := SeederPC.finished
  consumer : ConsumerPC := ConsumerPC.loopHead
  spares : List (SendPC × List Job) := []
  panics : Nat := 0
  deriving DecidableEq, Repr

/-- `fileWriter.Write(buf[:n])`: the bytes are appended to the entry created
last. -/
def appendToLast : List (String × List Nat) → List Nat → List (String × List Nat)
  | [], _ => []
  | [e], buf => [(e.1, e.2 ++ buf)]
  | e :: rest, buf => e :: appendToLast rest buf

/-- The read loop of `archiveFile` for the open file `content` at offset `pos`
(`k` reads made so far).  The offset grows in every iteration that goes on, so
`len(content) + 1` iterations are enough. -/
def archiveLoop (env : MultiEnv) (path : String) (content : List Nat) :
    Nat → Nat → Nat → MultiState → MultiState
  | 0, _, _, s => s
  | fuel + 1, pos, k, s =>
    if env.readErr path = some k then { s with fails := s.fails ++ [path] }
    else
      let buf := (content.drop pos).take 32768
      if buf.length = 0 then s
      else
        match s.writesLeft with
        | some 0 => { s with fails := s.fails ++ [path], escape := true }
        | left =>
          archiveLoop env path content fuel (pos + buf.length) (k + 1)
            { s with entries := appendToLast s.entries buf
                     writesLeft := left.map (fun n => n - 1) }

/-- The closure `archiveFile`. -/
def archiveFile (env : MultiEnv) (job : Job) (s : MultiState) : MultiState :=
  match env.openFile job.path with
  | none => { s with fails := s.fails ++ [job.path] }
  | some content =>
    let relativePath := "/".intercalate job.hierarchy
    if env.createErr relativePath then { s with fails := s.fails ++ [job.path] }
    else
      archiveLoop env job.path content (content.length + 1) 0 0
        { s with entries := s.entries ++ [(relativePath, [])] }

/-- The `subJob` that `scanDir` builds for an entry of the directory `job`. -/
def subJob (job : Job) (entry : FileInfo) : Job :=
  ⟨entry, pathJoin job.path entry.name, job.hierarchy ++ [entry.name]⟩

/-- The closure `pushItems` run to its end on the calling goroutine, before
any other goroutine exists (the lock is free and the queue has room for the
at most `QueueSize` items). -/
def pushItems (env : MultiEnv) : List String → MultiState → MultiState
  | [], s => s
  | item :: rest, s =>
    if s.escape then s
    else
      match env.stat item with
      | none => { s with fails := s.fails ++ [item] }
      | some st => pushItems env rest { s with queue := s.queue ++ [⟨st, item, [st.name]⟩] }

/-- `uploadMulti(files, writer, req)` up to its `return nil`: the state in
which the goroutines start.  With more than `QueueSize` files the first
`QueueSize` are pushed on the calling goroutine and `go pushItems` gets the
rest; `writesLeft` is the number of writes the pipe still accepts. -/
def uploadMulti (env : MultiEnv) (files : List String) (writesLeft : Option Nat) : MultiState :=
  if files.length > QueueSize then
    { pushItems env (files.take QueueSize) { writesLeft := writesLeft } with
      seeder := SeederPC.loopHead (files.drop QueueSize) }
  else
    pushItems env files { writesLeft := writesLeft }

/-- One step of `go pushItems(items)`; `none` when it is blocked or finished.
A send on the closed queue panics. -/
def stepSeeder (env : MultiEnv) (s : MultiState) : Option MultiState :=
  match s.seeder with
  | SeederPC.finished => none
  | SeederPC.loopHead [] => some { s with seeder := SeederPC.finished }
  | SeederPC.loopHead (item :: rest) =>
    if s.escape then some { s with seeder := SeederPC.finished }
    else
      match env.stat item with
      | none => some { s with fails := s.fails ++ [item], seeder := SeederPC.finished }
      | some st =>
        some { s with seeder := SeederPC.sending SendPC.atLock ⟨st, item, [st.name]⟩ rest }
  | SeederPC.sending SendPC.atLock job rest =>
    if s.lockHeld then none
    else some { s with lockHeld := true, seeder := SeederPC.sending SendPC.atSend job rest }
  | SeederPC.sending SendPC.atSend job rest =>
    if s.queueClosed then some { s with panics := s.panics + 1, seeder := SeederPC.finished }
    else if s.queue.length < QueueSize then
      some { s with queue := s.queue ++ [job], lockHeld := false,
                    seeder := SeederPC.loopHead rest }
    else none

/-- One step of the `i`-th goroutine started by `scanDir` for its spare jobs. -/
def stepSpare (s : MultiState) (i : Nat) : Option MultiState :=
  match s.spares[i]? with
  | none => none
  | some (_, []) => none
  | some (SendPC.atLock, job :: rest) =>
    if s.lockHeld then none
    else some { s with lockHeld := true, spares := s.spares.set i (SendPC.atSend, job :: rest) }
  | some (SendPC.atSend, job :: rest) =>
    if s.queueClosed then some { s with panics := s.panics + 1, spares := s.spares.set i (SendPC.atSend, []) }
    else if s.queue.length < QueueSize then
      some { s with queue := s.queue ++ [job], lockHeld := false,
                    spares := s.spares.set i (SendPC.atLock, rest) }
    else none

/-- One step of the consumer goroutine; `none` when it is blocked or
finished.  `handle`, `scan` are `handleJob` and the loop of `scanDir`;
`recvDiscard` is the receive `_, _ = <-queue`; `finalize` is the body of the
last `if escape`, which starts with `lock.Lock()`. -/
def stepConsumer (env : MultiEnv) (s : MultiState) : Option MultiState :=
  match s.consumer with
  | ConsumerPC.finished => none
  | ConsumerPC.loopHead =>
    if s.escape then some { s with consumer := ConsumerPC.finished }
    else some { s with consumer := ConsumerPC.atSelect }
  | ConsumerPC.atSelect =>
    match s.queue with
    | job :: rest =>
      if s.escape then some { s with queue := rest, consumer := ConsumerPC.tail }
      else some { s with queue := rest, consumer := ConsumerPC.handle job }
    | [] =>
      if s.queueClosed then some { s with panics := s.panics + 1, consumer := ConsumerPC.finished }
      else some { s with escape := true, consumer := ConsumerPC.recvDiscard }
  | ConsumerPC.handle job =>
    if job.info.isDir then
      match env.readDir job.path with
      | none => some { s with fails := s.fails ++ [job.path], consumer := ConsumerPC.afterHandle }
      | some entries => some { s with consumer := ConsumerPC.scan job entries [] }
    else some { archiveFile env job s with consumer := ConsumerPC.afterHandle }
  | ConsumerPC.scan _ [] spare =>
    some { s with spares := s.spares ++ [(SendPC.atLock, spare)],
                  consumer := ConsumerPC.afterHandle }
  | ConsumerPC.scan job (entry :: rest) spare =>
    if s.escape then
      some { s with spares := s.spares ++ [(SendPC.atLock, spare)],
                    consumer := ConsumerPC.afterHandle }
    else if entry.isDir then
      if s.lockHeld then none
      else if s.queue.length < QueueSize then
        some { s with queue := s.queue ++ [subJob job entry],
                      consumer := ConsumerPC.scan job rest spare }
      else some { s with consumer := ConsumerPC.scan job rest (spare ++ [subJob job entry]) }
    else some { archiveFile env (subJob job entry) s with consumer := ConsumerPC.scan job rest spare }
  | ConsumerPC.afterHandle =>
    if s.escape then some { s with consumer := ConsumerPC.recvDiscard }
    else some { s with consumer := ConsumerPC.tail }
  | ConsumerPC.recvDiscard =>
    match s.queue with
    | _ :: rest => some { s with queue := rest, consumer := ConsumerPC.tail }
    | [] =>
      if s.queueClosed then some { s with consumer := ConsumerPC.tail }
      else none
  | ConsumerPC.tail =>
    if s.escape then some { s with consumer := ConsumerPC.finalize }
    else some { s with consumer := ConsumerPC.loopHead }
  | ConsumerPC.finalize =>
    if s.lockHeld then none
    else
      some { s with
        queueClosed := true
        comment := if s.fails.length > 0 then
            some ("Those files could not be archived:" ++ "\n" ++ "\n".intercalate s.fails)
          else s.comment
        zipClosed := true
        pipeClosed := true
        consumer := ConsumerPC.finished }

/-- The goroutines of one `uploadMulti` call. -/
inductive Tid
  | seeder
  | consumer
  | spare (i : Nat)
  deriving DecidableEq, Repr

/-- One step of the goroutine `t`; `none` when it cannot move. -/
def stepMulti (env : MultiEnv) (s : MultiState) : Tid → Option MultiState
  | Tid.seeder => stepSeeder env s
  | Tid.consumer => stepConsumer env s
  | Tid.spare i => stepSpare s i

/-- The state after the goroutines were given the processor in the order of
the schedule; a goroutine that cannot move when it is its turn is skipped. -/
def runMulti (env : MultiEnv) : MultiState → List Tid → MultiState
  | s, [] => s
  | s, t :: rest =>
    match stepMulti env s t with
    | some s' => runMulti env s' rest
    | none => runMulti env s rest

/-- A set of states that no goroutine can leave while only the consumer
runs: in each of them the seeding goroutine is finished, no spare goroutine
has a job left to send, and a step of the consumer leads to a state of the
set (a check used in the proofs). -/
def closedUnderConsumer (env : MultiEnv) (states : List MultiState) : Bool :=
  states.all (fun s =>
    decide (s.seeder = SeederPC.finished) && s.spares.all (fun sp => sp.2.isEmpty) &&
      match stepConsumer env s with
      | none => true
      | some s' => decide (s' ∈ states))

/-- The states the consumer goes through when it alone runs for `n` steps. -/
def consumerStates (env : MultiEnv) : Nat → MultiState → List MultiState
  | 0, s => [s]
  | n + 1, s =>
    match stepConsumer env s with
    | none => [s]
    | some s' => s :: consumerStates env n s'

/-- A filesystem that holds the regular files `names` (each readable, its
content its own length) and nothing else; no read and no `Create` fails. -/
def flatEnv (names : List String) : MultiEnv :=
  { stat := fun p => if p ∈ names then some ⟨p, false⟩ else none
    readDir := fun _ => none
    openFile := fun p => if p ∈ names then some [p.length] else none
    readErr := fun _ => none
    createErr := fun _ => false }

/-- The names `f0`, ..., `f64`: 65 input paths. -/
def manyFiles : List String := (List.range 65).map (fun i => "f" ++ toString i)

/-- A schedule for 65 inputs: the seeding goroutine passes its `escape` test
and `os.Stat` for `f64`; the consumer archives the 64 queued files and finds
the queue empty; the seeding goroutine sends `f64` and ends; the consumer
receives it, drops it and finalizes. -/
def lateSeederSchedule : List Tid :=
  [Tid.seeder] ++ List.replicate 322 Tid.consumer ++ [Tid.seeder, Tid.seeder, Tid.seeder] ++
    List.replicate 4 Tid.consumer

/-- A filesystem with one directory `d` that holds the regular files `x` and
`y`, both readable. -/
def dirEnv : MultiEnv :=
  { stat := fun p => if p = "d" then some ⟨"d", true⟩ else none
    readDir := fun p => if p = "d" then some [⟨"x", false⟩, ⟨"y", false⟩] else none
    openFile := fun p => if p = "d/x" then some [1] else if p = "d/y" then some [2] else none
    readErr := fun _ => none
    createErr := fun _ => false }

/-! ## `getScreenshot` (screenshot.go) -/

/-- Where the handler goroutine of `getScreenshot` stands once the callbacks
are registered: in the `select`, in the `<-wait` of the timer case, or past
`close(wait)`. -/
inductive ShotPC
  | atSelect
  | waitFinish
  | returned
  deriving DecidableEq, Repr

/-- The variables of one `getScreenshot` call.  `bridge` and `event` say
whether the bridge record and the trigger event are registered; `timeouts`
and `failures` count the calls of `ctx.AbortWithStatusJSON` with
`StatusGatewayTimeout` and with `StatusInternalServerError`; `timer` says that
the channel of `time.After` is ready; `finishSend` and `errorSend` count the
callbacks blocked in `wait <- false`, `errorRest` the error callbacks past
their send; `finished` says that the handler received the value sent by
`OnFinish`; `panics` counts sends on the closed channel. -/
structure ShotState where
  called : Bool := false
  bridge : Bool := true
  event : Bool := true
  contentType : Bool := false
  timeouts : Nat := 0
  failures : Nat := 0
  timer : Bool := false
  finishSend : Nat := 0
  errorSend : Nat := 0
  errorRest : Nat := 0
  finished : Bool := false
  waitClosed : Bool := false
  panics : Nat := 0
  pc : ShotPC := ShotPC.atSelect
  deriving DecidableEq, Repr

/-- What can happen next: the `OnPush` callback runs; the `OnFinish` callback
reaches its send; the event callback registered with `AddEvent` reaches its
send, or goes on after it; the timer fires; the handler takes a step (the
flag says which case its `select` takes when both are ready).  The callbacks
are invoked by code that is not part of `getScreenshot`; they may run at any
time and in any order. -/
inductive ShotAction
  | push
  | finish
  | errorEvent
  | errorRest
  | timer
  | handler (preferTimer : Bool)
  deriving DecidableEq, Repr

/-- Modelled from the spec: `removeBridge(bridgeID)` (bridge.go is not under
src/), `cancel(id)` releases the record. -/
def removeBridge (s : ShotState) : ShotState := { s with bridge := false }

/-- Modelled from the spec: `common.RemoveEvent(trigger)` (not under src/),
the handler registered for the token is dropped. -/
def removeEvent (s : ShotState) : ShotState := { s with event := false }

/-- `close(wait)`: the goroutines still blocked in a send panic. -/
def closeWait (s : ShotState) : ShotState :=
  { s with waitClosed := true, panics := s.panics + s.finishSend + s.errorSend,
           finishSend := 0, errorSend := 0 }

/-- `<-wait` when a sender is blocked: its send completes. -/
def receiveWait (s : ShotState) : ShotState :=
  if s.finishSend > 0 then { s with finishSend := s.finishSend - 1, finished := true }
  else { s with errorSend := s.errorSend - 1, errorRest := s.errorRest + 1 }

/-- A step of the handler goroutine: the `select`, or the `<-wait` of the
timer case; each return path ends with `close(wait)`. -/
def stepHandler (preferTimer : Bool) (s : ShotState) : ShotState :=
  let canRecv := decide (s.finishSend > 0) || decide (s.errorSend > 0)
  match s.pc with
  | ShotPC.returned => s
  | ShotPC.waitFinish =>
    if canRecv then { closeWait (receiveWait s) with pc := ShotPC.returned } else s
  | ShotPC.atSelect =>
    if canRecv && !(s.timer && preferTimer) then
      { closeWait (receiveWait s) with pc := ShotPC.returned }
    else if s.timer then
      if !s.called then
        let s1 := removeEvent (removeBridge s)
        { closeWait { s1 with timeouts := s1.timeouts + 1 } with pc := ShotPC.returned }
      else { s with pc := ShotPC.waitFinish }
    else s

/-- One step of a `getScreenshot` call. -/
def stepShot (s : ShotState) : ShotAction → ShotState
  | ShotAction.push => { removeEvent { s with called := true } with contentType := true }
  | ShotAction.finish =>
    if s.waitClosed then { s with panics := s.panics + 1 }
    else { s with finishSend := s.finishSend + 1 }
  | ShotAction.errorEvent =>
    if s.waitClosed then { s with panics := s.panics + 1 }
    else { s with errorSend := s.errorSend + 1 }
  | ShotAction.errorRest =>
    if s.errorRest > 0 then
      let s1 := removeEvent (removeBridge { s with called := true })
      { s1 with failures := s1.failures + 1, errorRest := s1.errorRest - 1 }
    else s
  | ShotAction.timer => { s with timer := true }
  | ShotAction.handler preferTimer => stepHandler preferTimer s

/-- The state after the given steps. -/
def runShot (s : ShotState) (steps : List ShotAction) : ShotState :=
  steps.foldl stepShot s

/-- The state of `getScreenshot` when it reaches its `select`. -/
def shotInit : ShotState := {}

/-- The step `handler b` in state `s` runs the timer case of the `select`. -/
def takesTimer (s : ShotState) (b : Bool) : Prop :=
  s.pc = ShotPC.atSelect ∧ s.timer = true ∧ ((s.finishSend = 0 ∧ s.errorSend = 0) ∨ b = true)

/-- No step of the list belongs to the event (error) callback. -/
def noErrorCallback (steps : List ShotAction) : Prop :=
  ∀ a ∈ steps, a ≠ ShotAction.errorEvent ∧ a ≠ ShotAction.errorRest

/-- The facts that hold in every state of a call in which the event (error)
callback never runs. -/
structure ShotInv (s : ShotState) : Prop where
  noError : s.errorSend = 0 ∧ s.errorRest = 0 ∧ s.failures = 0
  running : s.pc ≠ ShotPC.returned → s.timeouts = 0 ∧ s.finished = false ∧ s.waitClosed = false
  ended : s.pc = ShotPC.returned →
    ((s.timeouts = 1 ∧ s.finished = false ∧ s.bridge = false ∧ s.event = false) ∨
      (s.timeouts = 0 ∧ s.finished = true)) ∧ s.waitClosed = true ∧ s.finishSend = 0
  waiting : s.pc = ShotPC.waitFinish → s.called = true ∧ s.timer = true

/-! ## Theorems: `gbkValidate` -/

theorem drop_eq_getD_cons (b : List Nat) (i : Nat) (h : i < b.length) :
    b.drop i = b.getD i 0 :: b.drop (i + 1) := by
  rw [List.drop_eq_getElem_cons h, List.getD_eq_getElem b 0 h]

theorem gbkScan_cons_ascii (a : Nat) (l : List Nat) (ha : a ≤ 0x7f) :
    gbkScan (a :: l) = gbkScan l := by
  cases l with
  | nil => simp [gbkScan, ha]
  | cons y rest => rw [gbkScan, if_pos ha]

theorem gbkScan_cons_pair (a c : Nat) (l : List Nat) (ha : ¬ a ≤ 0x7f)
    (hp : gbkPair a c = true) : gbkScan (a :: c :: l) = gbkScan l := by
  rw [gbkScan, if_neg ha, if_pos hp]

theorem gbkScan_cons_bad (a c : Nat) (l : List Nat) (ha : ¬ a ≤ 0x7f)
    (hp : ¬ gbkPair a c = true) : gbkScan (a :: c :: l) = false := by
  rw [gbkScan, if_neg ha, if_neg hp]

theorem gbkScan_lone (a : Nat) (ha : ¬ a ≤ 0x7f) : gbkScan [a] = false := by
  simp [gbkScan, ha]

/-- With more fuel than bytes left, the indexed loop is the suffix scan. -/
theorem gbkLoop_eq_scan (b : List Nat) :
    ∀ fuel i, b.length - i < fuel → gbkLoop b fuel i = some (gbkScan (b.drop i)) := by
  intro fuel
  induction fuel with
  | zero => intro i h; omega
  | succ fuel ih =>
    intro i h
    unfold gbkLoop
    by_cases hi : i < b.length
    · rw [if_pos hi, drop_eq_getD_cons b i hi]
      by_cases hx : b.getD i 0 ≤ 0x7f
      · rw [if_pos hx, ih (i + 1) (by omega), gbkScan_cons_ascii _ _ hx]
      · rw [if_neg hx]
        by_cases hi1 : i + 1 < b.length
        · rw [if_pos hi1, drop_eq_getD_cons b (i + 1) hi1]
          by_cases hp : gbkPair (b.getD i 0) (b.getD (i + 1) 0) = true
          · rw [if_pos hp, ih (i + 2) (by omega), gbkScan_cons_pair _ _ _ hx hp]
          · rw [if_neg hp, gbkScan_cons_bad _ _ _ hx hp]
        · rw [if_neg hi1, List.drop_eq_nil_of_le (by omega), gbkScan_lone _ hx]
    · rw [if_neg hi, List.drop_eq_nil_of_le (by omega)]
      rfl

theorem gbkValidate_eq_scan (b : List Nat) : gbkValidate b = gbkScan b := by
  unfold gbkValidate
  rw [gbkLoop_eq_scan b (b.length + 1) 0 (by omega)]
  simp

theorem gbkPair_iff (x y : Nat) :
    gbkPair x y = true ↔ (0x81 ≤ x ∧ x ≤ 0xfe ∧ 0x40 ≤ y ∧ y ≤ 0xfe ∧ y ≠ 0xf7) := by
  simp [gbkPair, and_assoc]

theorem gbkScan_of_units {b : List Nat} (h : GbkUnits b) : gbkScan b = true := by
  induction h with
  | nil => rfl
  | single x rest hx _ ih =>
    cases rest with
    | nil => simp [gbkScan, hx]
    | cons y rest => simp [gbkScan, hx, ih]
  | pair x y rest h1 h2 h3 h4 h5 _ ih =>
    have hp : gbkPair x y = true := (gbkPair_iff x y).2 ⟨h1, h2, h3, h4, h5⟩
    have hx : ¬ x ≤ 0x7f := by omega
    simp [gbkScan, hx, hp, ih]

theorem units_of_gbkScan : ∀ n (b : List Nat), b.length ≤ n → gbkScan b = true → GbkUnits b := by
  intro n
  induction n with
  | zero =>
    intro b hb _
    have : b = [] := List.length_eq_zero.1 (by omega)
    subst this
    exact GbkUnits.nil
  | succ n ih =>
    intro b hb h
    match b, hb, h with
    | [], _, _ => exact GbkUnits.nil
    | [x], _, h =>
      have hx : x ≤ 0x7f := by simpa [gbkScan] using h
      exact GbkUnits.single x [] hx GbkUnits.nil
    | x :: y :: rest, hb, h =>
      by_cases hx : x ≤ 0x7f
      · have h2 : gbkScan (y :: rest) = true := by simpa [gbkScan, hx] using h
        exact GbkUnits.single x _ hx (ih _ (by simp at hb ⊢; omega) h2)
      · by_cases hp : gbkPair x y = true
        · have h2 : gbkScan rest = true := by simpa [gbkScan, hx, hp] using h
          obtain ⟨h1, h2', h3, h4, h5⟩ := (gbkPair_iff x y).1 hp
          exact GbkUnits.pair x y rest h1 h2' h3 h4 h5 (ih _ (by simp at hb ⊢; omega) h2)
        · simp [gbkScan, hx, hp] at h

theorem gbkScan_iff (b : List Nat) : gbkScan b = true ↔ GbkUnits b :=
  ⟨units_of_gbkScan b.length b le_rfl, gbkScan_of_units⟩

theorem units_ascii : ∀ b : List Nat, (∀ x ∈ b, x ≤ 0x7f) → GbkUnits b
  | [], _ => GbkUnits.nil
  | x :: rest, h =>
    GbkUnits.single x rest (h x (by simp)) (units_ascii rest (fun y hy => h y (by simp [hy])))

theorem gbkScan_append_lone {p : List Nat} (hp : GbkUnits p) (x : Nat) (hx : 0x7f < x) :
    gbkScan (p ++ [x]) = false := by
  induction hp with
  | nil => exact gbkScan_lone x (by omega)
  | single a rest ha _ ih =>
    rw [List.cons_append, gbkScan_cons_ascii _ _ ha]
    exact ih
  | pair a c rest h1 h2 h3 h4 h5 _ ih =>
    rw [List.cons_append, List.cons_append,
      gbkScan_cons_pair a c _ (by omega) ((gbkPair_iff a c).2 ⟨h1, h2, h3, h4, h5⟩)]
    exact ih

/-- C5: `gbkValidate b` is true exactly when `b` is a concatenation of units
(one byte `≤ 0x7F`, or a lead byte in `[0x81,0xFE]` followed by a trail byte in
`[0x40,0xFE]` other than `0xF7`); it accepts every all-ASCII buffer, the empty
one included, accepts `0xB0 0xA1`, and rejects every buffer whose scan reaches
a final lone byte above `0x7F` (a valid prefix followed by one such byte), for
instance a trailing `0xB0`. -/
theorem gbkValidate_spec :
    (∀ b : List Nat, gbkValidate b = true ↔ GbkUnits b) ∧
    (∀ b : List Nat, (∀ x ∈ b, x ≤ 0x7f) → gbkValidate b = true) ∧
    gbkValidate [] = true ∧
    gbkValidate [0xB0, 0xA1] = true ∧
    (∀ (p : List Nat) (x : Nat), GbkUnits p → 0x7f < x → gbkValidate (p ++ [x]) = false) ∧
    gbkValidate [0x41, 0xB0] = false := by
  refine ⟨fun b => ?_, fun b hb => ?_, by decide, by decide, fun p x hp hx => ?_, by decide⟩
  · rw [gbkValidate_eq_scan]; exact gbkScan_iff b
  · rw [gbkValidate_eq_scan]; exact (gbkScan_iff b).2 (units_ascii b hb)
  · rw [gbkValidate_eq_scan]
    exact gbkScan_append_lone hp x hx

/-! ## Theorems: `uploadSingle` -/

theorem take_take_drop (l : List Nat) (n r : Nat) (h : n ≤ r) :
    l.take n ++ (l.drop n).take (r - n) = l.take r := by
  have := List.take_add l n (r - n)
  rw [← this]
  congr 1
  omega

/-- The pump loop sends exactly the next `r` bytes when they exist, every read
succeeds and returns at least one byte, and the fuel exceeds `r`. -/
theorem uploadSingleLoop_ok (content : List Nat) (mode : Nat → ReadMode) (c : Nat → Nat)
    (hmode : ∀ k, mode k = ReadMode.upTo (c k)) (hc : ∀ k, 1 ≤ c k) :
    ∀ (fuel r pos k : Nat) (pipe : List Nat), r < fuel → pos + r ≤ content.length →
      uploadSingleLoop content mode fuel (r : Int) pos k pipe
        = PumpResult.closed (pipe ++ (content.drop pos).take r) := by
  intro fuel
  induction fuel with
  | zero => intro r pos k pipe h; omega
  | succ fuel ih =>
    intro r pos k pipe hfuel hlen
    unfold uploadSingleLoop
    simp only [hmode k]
    by_cases hr : r = 0
    · subst hr
      simp [fileRead]
    · have hck := hc k
      have hb : ¬ ((if (r : Int) < 32768 then (r : Int) else 32768) < 0) := by
        split <;> omega
      have hbn : (if (r : Int) < 32768 then (r : Int) else 32768).toNat = min r 32768 := by
        split <;> omega
      rw [if_neg hb, hbn]
      have hmin : min r 32768 ≠ 0 := by omega
      simp only [fileRead, if_neg hmin]
      set n := min (min (min r 32768) (content.length - pos)) (c k) with hn
      have hn1 : 1 ≤ n := by omega
      have hnr : n ≤ r := by omega
      have hnz : ¬ n = 0 := by omega
      have heof : ¬ (content.length - pos = 0) := by omega
      by_cases hdone : (r : Int) - (n : Int) = 0
      · have : n = r := by omega
        simp [hdone, this]
      · have hcast : (r : Int) - (n : Int) = ((r - n : Nat) : Int) := by omega
        have hcond : ¬ (n = 0 ∨ (r : Int) - (n : Int) = 0 ∨ decide (content.length - pos = 0) = true) := by
          simp [hnz, hdone, heof]
        have key : (content.drop pos).take n ++ (content.drop (pos + n)).take (r - n)
            = (content.drop pos).take r := by
          have := take_take_drop (content.drop pos) n r hnr
          rw [List.drop_drop] at this
          exact this
        rw [if_neg hcond, hcast, ih (r - n) (pos + n) (k + 1) _ (by omega) (by omega),
          List.append_assoc, key]

/-- C3: for a file of size `s` and `0 ≤ start ≤ s`, with `end = 0` or
`start ≤ end ≤ s`, `uploadSingle` sets the content length to `end - start`
(to `s - start` when `end` is zero), and the pump writes to the pipe, before
closing it, exactly the file's bytes `[start, start + length)` in order,
however the reads split them into chunks (each read returning at least one
and at most 32768 bytes); `length + 1` loop iterations are enough. -/
theorem uploadSingle_range (content : List Nat) (start stop : Int) (mode : Nat → ReadMode)
    (c : Nat → Nat) (fuel : Nat)
    (hmode : ∀ k, mode k = ReadMode.upTo (c k)) (hc : ∀ k, 1 ≤ c k)
    (hstart : 0 ≤ start) (hsize : start ≤ content.length)
    (hstop : stop = 0 ∨ (start ≤ stop ∧ stop ≤ content.length))
    (hfuel : (if stop = 0 then (content.length : Int) - start else stop - start).toNat < fuel) :
    uploadSingle (some content) start stop mode fuel
      = Except.ok ⟨if stop = 0 then (content.length : Int) - start else stop - start,
          PumpResult.closed ((content.drop start.toNat).take
            (if stop = 0 then (content.length : Int) - start else stop - start).toNat)⟩ := by
  unfold uploadSingle
  have h1 : ¬ ((content.length : Int) < stop) := by omega
  simp only [if_neg h1, if_pos hstart]
  set len := (if stop = 0 then (content.length : Int) - start else stop - start) with hlen
  have hlen0 : 0 ≤ len := by rw [hlen]; split <;> omega
  have hle : start.toNat + len.toNat ≤ content.length := by
    rw [hlen]; split <;> omega
  have hcast : len = ((len.toNat : Nat) : Int) := by omega
  have := uploadSingleLoop_ok content mode c hmode hc fuel len.toNat start.toNat 0 [] hfuel hle
  rw [← hcast] at this
  rw [this]
  simp

/-- The two examples of C3 on a 100-byte file, with reads that return at most
7 bytes: `start = 10, end = 0` gives length 90 and bytes `[10,100)`;
`start = 10, end = 50` gives length 40 and bytes `[10,50)`. -/
theorem uploadSingle_range_witness :
    uploadSingle (some (List.range 100)) 10 0 (fun _ => ReadMode.upTo 7) 91
      = Except.ok ⟨90, PumpResult.closed ((List.range 100).drop 10)⟩ ∧
    uploadSingle (some (List.range 100)) 10 50 (fun _ => ReadMode.upTo 7) 41
      = Except.ok ⟨40, PumpResult.closed (((List.range 100).drop 10).take 40)⟩ := by
  constructor
  · have h := uploadSingle_range (List.range 100) 10 0 (fun _ => ReadMode.upTo 7) (fun _ => 7) 91
      (fun _ => rfl) (fun _ => show 1 ≤ 7 by decide) (by decide) (by simp) (Or.inl rfl) (by simp)
    simpa using h
  · have h := uploadSingle_range (List.range 100) 10 50 (fun _ => ReadMode.upTo 7) (fun _ => 7) 41
      (fun _ => rfl) (fun _ => show 1 ≤ 7 by decide) (by decide) (by simp) (Or.inr (by simp)) (by simp)
    simpa using h

/-! ## Theorems: `FetchFile` -/

theorem getTempFileNameFrom_first (fs : FS) (dir file : String) (i : Nat)
    (hfree : fs (tempName dir file i) = none) :
    ∀ fuel j, j ≤ i → i - j < fuel → (∀ m, j ≤ m → m < i → fs (tempName dir file m) ≠ none) →
      getTempFileNameFrom fs dir file fuel j = some (tempName dir file i) := by
  intro fuel
  induction fuel with
  | zero => intro j _ h; omega
  | succ fuel ih =>
    intro j hj hfuel hused
    unfold getTempFileNameFrom
    by_cases hji : j = i
    · subst hji
      simp [hfree]
    · have hlt : j < i := by omega
      have hne := hused j le_rfl hlt
      have hsome : ¬ (fs (tempName dir file j)).isNone = true := by
        cases h : fs (tempName dir file j) with
        | none => exact absurd h hne
        | some c => simp
      rw [if_neg hsome]
      exact ih (j + 1) (by omega) (by omega) (fun m hm hmi => hused m (by omega) hmi)

theorem bytesOf_append (a b : List ReadStep) : bytesOf (a ++ b) = bytesOf a ++ bytesOf b := by
  simp [bytesOf]

theorem bytesOf_single (r : ReadStep) : bytesOf [r] = r.data := by
  simp [bytesOf]

theorem withTemp_append (fs : FS) (tmpFile : String) (done : List ReadStep) (r : ReadStep) :
    (withTemp fs tmpFile done).append tmpFile r.data = withTemp fs tmpFile (done ++ [r]) := by
  unfold FS.append withTemp
  simp [bytesOf_append, bytesOf_single]

theorem withTemp_cleanup (fs : FS) (tmpFile : String) (done : List ReadStep)
    (hfree : fs tmpFile = none) :
    ((withTemp fs tmpFile done).truncate tmpFile).remove tmpFile = fs := by
  unfold FS.truncate FS.remove withTemp
  funext p
  by_cases hp : p = tmpFile
  · subst hp; simp [hfree]
  · simp [Function.update, hp]

theorem delivers_data {r : ReadStep} (h : r.delivers = true) : ¬ r.data.length = 0 := by
  unfold ReadStep.delivers at h
  intro h0
  have : r.data = [] := List.length_eq_zero.1 h0
  simp [this] at h

theorem delivers_err {r : ReadStep} (h : r.delivers = true) (e : String) :
    r.err ≠ some (BodyErr.failed e) := by
  unfold ReadStep.delivers at h
  intro he
  simp [he] at h

/-- The copy loop over reads that all deliver and whose writes all succeed:
the temporary file grows by their bytes, one recorded step per write. -/
theorem fetchLoop_delivered (fs : FS) (tmpFile : String) (w : Nat → Option String) :
    ∀ (pre done rest : List ReadStep) (k : Nat) (tr : List FS),
      (∀ r ∈ pre, r.delivers = true) → (∀ j, j < pre.length → w (k + j) = none) →
      fetchLoop tmpFile w (pre ++ rest) k (withTemp fs tmpFile done) tr
        = fetchLoop tmpFile w rest (k + pre.length) (withTemp fs tmpFile (done ++ pre))
            (tr ++ writeSteps fs tmpFile done pre) := by
  intro pre
  induction pre with
  | nil => intro done rest k tr _ _; simp [writeSteps]
  | cons r pre ih =>
    intro done rest k tr hpre hw
    have hr : r.delivers = true := hpre r (by simp)
    have hw0 : w k = none := by simpa using hw 0 (by simp)
    have hstep : fetchLoop tmpFile w (r :: (pre ++ rest)) k (withTemp fs tmpFile done) tr
        = fetchLoop tmpFile w (pre ++ rest) (k + 1) (withTemp fs tmpFile (done ++ [r]))
            (tr ++ [withTemp fs tmpFile (done ++ [r])]) := by
      rw [fetchLoop]
      have hd := delivers_data hr
      cases herr : r.err with
      | none => simp [hd, hw0, withTemp_append]
      | some be =>
        cases be with
        | eof => simp [hd, hw0, withTemp_append]
        | failed e => exact absurd herr (delivers_err hr e)
    rw [List.cons_append, hstep,
      ih (done ++ [r]) rest (k + 1) _ (fun x hx => hpre x (by simp [hx]))
        (fun j hj => by
          have := hw (j + 1) (by simp; omega)
          rw [show k + 1 + j = k + (j + 1) by omega]; exact this)]
    simp [writeSteps, Nat.add_assoc, Nat.add_comm 1]

theorem fetchLoop_ends (tmpFile : String) (w : Nat → Option String) (rest : List ReadStep)
    (k : Nat) (fs : FS) (tr : List FS) (h : endsStream rest = true) :
    fetchLoop tmpFile w rest k fs tr = (Except.ok fs, fs, tr) := by
  cases rest with
  | nil => rfl
  | cons r rest =>
    unfold endsStream at h
    rw [fetchLoop]
    have hd : r.data.length = 0 := by
      have : r.data.isEmpty = true := by
        cases hh : r.data.isEmpty <;> simp [hh] at h ⊢
      simpa [List.isEmpty_iff] using this
    cases herr : r.err with
    | none => simp [hd]
    | some be =>
      cases be with
      | eof => simp [hd]
      | failed e => simp [herr] at h

theorem fetchLoop_fails (tmpFile : String) (w : Nat → Option String) (bad : ReadStep)
    (post : List ReadStep) (k : Nat) (fs : FS) (tr : List FS) (e : String)
    (h : bad.err = some (BodyErr.failed e) ∨ (bad.delivers = true ∧ w k = some e)) :
    fetchLoop tmpFile w (bad :: post) k fs tr
      = (Except.error e, (fs.truncate tmpFile).remove tmpFile, tr) := by
  rw [fetchLoop]
  rcases h with h | ⟨hd, hw⟩
  · simp [h]
  · have hd0 := delivers_data hd
    cases herr : bad.err with
    | none => simp [hd0, hw]
    | some be =>
      cases be with
      | eof => simp [hd0, hw]
      | failed e2 => exact absurd herr (delivers_err hd e2)

theorem writeSteps_mem (fs : FS) (tmpFile : String) :
    ∀ (pre done : List ReadStep) (st : FS), st ∈ writeSteps fs tmpFile done pre →
      ∃ n, st = withTemp fs tmpFile (done ++ pre.take n) := by
  intro pre
  induction pre with
  | nil => intro done st h; simp [writeSteps] at h
  | cons r pre ih =>
    intro done st h
    simp only [writeSteps, List.mem_cons] at h
    rcases h with h | h
    · exact ⟨1, by simp [h]⟩
    · obtain ⟨n, hn⟩ := ih (done ++ [r]) st h
      exact ⟨n + 1, by simp [hn]⟩

theorem writeSteps_getLast (fs : FS) (tmpFile : String) :
    ∀ (pre done : List ReadStep),
      (withTemp fs tmpFile done :: writeSteps fs tmpFile done pre).getLast?
        = some (withTemp fs tmpFile (done ++ pre)) := by
  intro pre
  induction pre with
  | nil => intro done; simp [writeSteps]
  | cons r pre ih =>
    intro done
    rw [writeSteps, List.getLast?_cons_cons, ih (done ++ [r])]
    simp

theorem streamed_trace (fs : FS) (dest tmpFile : String) (old : List Nat) (pre : List ReadStep)
    (hdest : fs dest = some old) (hne : dest ≠ tmpFile) :
    StreamedToTemp fs dest tmpFile old pre
      ([withTemp fs tmpFile []] ++ writeSteps fs tmpFile [] pre) := by
  refine ⟨by simp [withTemp, bytesOf], ?_, ?_⟩
  · have := writeSteps_getLast fs tmpFile pre []
    simpa [withTemp] using this
  · intro st hst
    have hform : ∃ n, st = withTemp fs tmpFile (pre.take n) := by
      rcases List.mem_append.1 hst with h | h
      · exact ⟨0, by simpa using h⟩
      · obtain ⟨n, hn⟩ := writeSteps_mem fs tmpFile pre [] st h
        exact ⟨n, by simpa using hn⟩
    obtain ⟨n, rfl⟩ := hform
    refine ⟨?_, ⟨n, by simp [withTemp]⟩, fun p hp => by simp [withTemp, Function.update, hp]⟩
    simp [withTemp, Function.update, hne, hdest]

/-- C4: `FetchFile` into an existing destination `dir/file` (content `old`),
the request and `os.Create` succeeding, `dir/file.tmp.i` being the first
unused temporary name and the probing having fuel for `i + 1` names.  The
body starts with the reads `pre`, which all deliver bytes and whose writes
succeed.  If the next read fails with a non-EOF error, or its write fails,
the call returns that error, the temporary file no longer exists and the
filesystem, the destination included, is exactly what it was before the call.
If the stream ends there, the call returns no error and the only change is
that the destination holds exactly the received bytes.  In both cases, while
the body was received the bytes went to `dir/file.tmp.i` and nothing else
changed, the destination included. -/
theorem FetchFile_existing (fs : FS) (dir file : String) (env : FetchEnv) (old : List Nat)
    (i fuel : Nat) (pre rest : List ReadStep)
    (hget : env.getErr = none) (hcreate : env.createErr = none)
    (hdest : fs (pathJoin dir file) = some old)
    (hused : ∀ j, j < i → fs (tempName dir file j) ≠ none)
    (hfree : fs (tempName dir file i) = none)
    (hfuel : i < fuel)
    (hbody : env.body = pre ++ rest)
    (hpre : ∀ r ∈ pre, r.delivers = true)
    (hwrite : ∀ k, k < pre.length → env.writeErr k = none) :
    getTempFileName fs dir file fuel = some (tempName dir file i) ∧
    (∀ e bad post, rest = bad :: post →
      (bad.err = some (BodyErr.failed e) ∨
        (bad.delivers = true ∧ env.writeErr pre.length = some e)) →
      ∃ out, FetchFile fs dir file env fuel = some out ∧
        StreamedToTemp fs (pathJoin dir file) (tempName dir file i) old pre out.trace ∧
        out.err = some e ∧ out.fs (tempName dir file i) = none ∧
        out.fs (pathJoin dir file) = some old ∧ out.fs = fs) ∧
    (endsStream rest = true →
      ∃ out, FetchFile fs dir file env fuel = some out ∧
        StreamedToTemp fs (pathJoin dir file) (tempName dir file i) old pre out.trace ∧
        out.err = none ∧ out.fs (pathJoin dir file) = some (bytesOf pre) ∧
        out.fs (tempName dir file i) = none ∧
        out.fs = Function.update fs (pathJoin dir file) (some (bytesOf pre))) := by
  have htmp : getTempFileName fs dir file fuel = some (tempName dir file i) :=
    getTempFileNameFrom_first fs dir file i hfree fuel 0 (Nat.zero_le _) (by omega)
      (fun m _ hm => hused m hm)
  have hne : pathJoin dir file ≠ tempName dir file i := by
    intro h; rw [h, hfree] at hdest; exact absurd hdest (by simp)
  have hcreate' : fs.create (tempName dir file i) = withTemp fs (tempName dir file i) [] := by
    simp [FS.create, withTemp, bytesOf]
  have hloop := fetchLoop_delivered fs (tempName dir file i) env.writeErr pre [] rest 0
    [withTemp fs (tempName dir file i) []] hpre (fun j hj => by simpa using hwrite j hj)
  simp only [List.nil_append, Nat.zero_add] at hloop
  have htrace := streamed_trace fs (pathJoin dir file) (tempName dir file i) old pre hdest hne
  refine ⟨htmp, ?_, ?_⟩
  · intro e bad post hrest hbad
    subst hrest
    have hfail := fetchLoop_fails (tempName dir file i) env.writeErr bad post pre.length
      (withTemp fs (tempName dir file i) pre)
      ([withTemp fs (tempName dir file i) []] ++ writeSteps fs (tempName dir file i) [] pre) e hbad
    rw [withTemp_cleanup fs _ pre hfree] at hfail
    refine ⟨⟨some e, fs, _⟩, ?_, htrace, rfl, hfree, hdest, rfl⟩
    unfold FetchFile
    simp only [hget, hcreate, hdest, Option.isSome_some, if_true, htmp, hbody, hcreate', hloop,
      hfail]
  · intro hends
    have hend := fetchLoop_ends (tempName dir file i) env.writeErr rest pre.length
      (withTemp fs (tempName dir file i) pre)
      ([withTemp fs (tempName dir file i) []] ++ writeSteps fs (tempName dir file i) [] pre) hends
    have hne' : tempName dir file i ≠ pathJoin dir file := fun h => hne h.symm
    have hren : ((withTemp fs (tempName dir file i) pre).remove (pathJoin dir file)).rename
        (tempName dir file i) (pathJoin dir file)
        = some (Function.update fs (pathJoin dir file) (some (bytesOf pre))) := by
      unfold FS.rename FS.remove withTemp
      simp only [Function.update, hne', dite_false, dite_true, if_false]
      congr 1
      funext p
      by_cases hp1 : p = tempName dir file i
      · subst hp1; simp [hne', hfree]
      · by_cases hp2 : p = pathJoin dir file
        · subst hp2; simp [hp1]
        · simp [hp1, hp2]
    refine ⟨⟨none, Function.update fs (pathJoin dir file) (some (bytesOf pre)),
      [withTemp fs (tempName dir file i) []] ++ writeSteps fs (tempName dir file i) [] pre⟩,
      ?_, htrace, rfl, ?_, ?_, rfl⟩
    · unfold FetchFile
      simp only [hget, hcreate, hdest, Option.isSome_some, if_true, htmp, hbody, hcreate', hloop,
        hend, hren]
    · exact Function.update_same _ _ _
    · show Function.update fs (pathJoin dir file) (some (bytesOf pre)) (tempName dir file i) = none
      rw [Function.update_noteq hne']
      exact hfree

/-- C4 at a concrete input: `d/f` exists, `d/f.tmp.0` is taken, the first
read delivers two bytes and the second fails: the error is returned,
`d/f.tmp.1` is gone and `d/f` still holds its three bytes. -/
theorem FetchFile_existing_witness :
    getTempFileName fetchExampleFS "d" "f" 2 = some (tempName "d" "f" 1) ∧
    ∃ out, FetchFile fetchExampleFS "d" "f" fetchExampleEnv 2 = some out ∧
      out.err = some "connection reset" ∧ out.fs (tempName "d" "f" 1) = none ∧
      out.fs (pathJoin "d" "f") = some [1, 2, 3] ∧ out.fs = fetchExampleFS := by
  have h := FetchFile_existing fetchExampleFS "d" "f" fetchExampleEnv [1, 2, 3] 1 2
    [⟨[7, 8], none⟩] [⟨[], some (BodyErr.failed "connection reset")⟩] rfl rfl
    (by decide)
    (fun j hj => by
      have : j = 0 := by omega
      subst this
      decide)
    (by decide) (by decide) rfl
    (fun r hr => by
      have : r = ⟨[7, 8], none⟩ := by simpa using hr
      subst this
      rfl)
    (fun k _ => rfl)
  obtain ⟨h1, h2, _⟩ := h
  obtain ⟨out, ho, _, he, ht, hd, hfs⟩ := h2 "connection reset" _ [] rfl (Or.inl rfl)
  exact ⟨h1, out, ho, he, ht, hd, hfs⟩

/-! ## Theorems: terminal sessions -/

theorem wrap64_sub (a b : Int) (ha : 0 ≤ a ∧ a < 2 ^ 63) (hb : 0 ≤ b ∧ b < 2 ^ 63) :
    wrap64 (a - b) = a - b := by
  unfold wrap64
  norm_num at ha hb ⊢
  omega

theorem healthCheckIter_eq (timestamp : Int) (heap : List Terminal) :
    ∀ (entries : List (String × Nat)) (queue : List String) (closed : List Nat),
      healthCheckIter timestamp heap entries (queue, closed)
        = (queue ++ (entries.filter (idleEntry timestamp heap)).map Prod.fst,
           closed ++ killedHandles heap (entries.filter (idleEntry timestamp heap))) := by
  intro entries
  induction entries with
  | nil => intro queue closed; simp [healthCheckIter, killedHandles]
  | cons e rest ih =>
    intro queue closed
    obtain ⟨uuid, addr⟩ := e
    rw [healthCheckIter]
    cases hget : heap[addr]? with
    | none =>
      have hidle : idleEntry timestamp heap (uuid, addr) = false := by simp [idleEntry, hget]
      simp only [ih, List.filter_cons, hidle]
      simp
    | some t =>
      by_cases hi : wrap64 (timestamp - t.lastPack) > MaxInterval
      · have hidle : idleEntry timestamp heap (uuid, addr) = true := by simp [idleEntry, hget, hi]
        simp only [if_pos hi, ih, List.filter_cons, hidle, if_true, List.map_cons, killedHandles,
          hget, Option.bind_some]
        cases hp : t.pty with
        | none => simp [doKillTerminal, hp]
        | some h => simp [doKillTerminal, hp]
      · have hidle : idleEntry timestamp heap (uuid, addr) = false := by simp [idleEntry, hget, hi]
        simp only [if_neg hi, ih, List.filter_cons, hidle]
        simp

theorem foldl_cmapRemove (queue : List String) :
    ∀ m : List (String × Nat),
      queue.foldl cmapRemove m = m.filter (fun e => decide (e.1 ∉ queue)) := by
  induction queue with
  | nil => intro m; simp
  | cons u queue ih =>
    intro m
    rw [List.foldl_cons, ih, cmapRemove, List.filter_filter]
    congr 1
    funext e
    by_cases h1 : e.1 = u <;> by_cases h2 : e.1 ∈ queue <;> simp [h1, h2]

theorem cmapGet_eq_some_iff (m : List (String × Nat)) (hm : (m.map Prod.fst).Nodup)
    (uuid : String) (addr : Nat) : cmapGet m uuid = some addr ↔ (uuid, addr) ∈ m := by
  induction m with
  | nil => simp [cmapGet]
  | cons e rest ih =>
    obtain ⟨k, v⟩ := e
    rw [List.map_cons, List.nodup_cons] at hm
    by_cases hk : k = uuid
    · subst hk
      have hnot : (k, addr) ∉ rest := fun h => hm.1 (List.mem_map.2 ⟨(k, addr), h, rfl⟩)
      rw [cmapGet, if_pos rfl]
      simp only [List.mem_cons, hnot, or_false, Prod.mk.injEq, true_and, Option.some.injEq]
      exact eq_comm
    · have hk' : ¬ (uuid = k) := fun h => hk h.symm
      rw [cmapGet, if_neg hk, ih hm.2]
      simp [hk']

theorem cmapGet_eq_none_iff (m : List (String × Nat)) (uuid : String) :
    cmapGet m uuid = none ↔ ∀ e ∈ m, e.1 ≠ uuid := by
  induction m with
  | nil => simp [cmapGet]
  | cons e rest ih =>
    obtain ⟨k, v⟩ := e
    by_cases hk : k = uuid
    · simp [cmapGet, hk]
    · rw [cmapGet, if_neg hk, ih]
      simp [hk]

theorem healthCheck_eq (timestamp : Int) (s : TermState) :
    healthCheck timestamp s =
      { s with
        terminals := s.terminals.filter (fun e =>
          decide (e.1 ∉ (s.terminals.filter (idleEntry timestamp s.heap)).map Prod.fst))
        closed := s.closed ++
          killedHandles s.heap (s.terminals.filter (idleEntry timestamp s.heap)) } := by
  unfold healthCheck
  simp only [healthCheckIter_eq, List.nil_append, foldl_cmapRemove]

theorem killedHandles_mem_iff (heap : List Terminal) (h : Nat) :
    ∀ l : List (String × Nat), h ∈ killedHandles heap l ↔
      ∃ e ∈ l, ∃ term, heap[e.2]? = some term ∧ term.pty = some h := by
  intro l
  induction l with
  | nil => simp [killedHandles]
  | cons e rest ih =>
    have key : ∀ h2, (heap[e.2]?).bind Terminal.pty = some h2 ↔
        ∃ term, heap[e.2]? = some term ∧ term.pty = some h2 := by
      intro h2
      cases heap[e.2]? <;> simp
    rw [killedHandles]
    simp only [List.mem_cons, exists_eq_or_imp, ← key h]
    cases hb : (heap[e.2]?).bind Terminal.pty with
    | none => simp [ih]
    | some h2 =>
      simp only [List.mem_cons, ih, Option.some.injEq]
      constructor
      · rintro (h1 | h1)
        · exact Or.inl h1.symm
        · exact Or.inr h1
      · rintro (h1 | h1)
        · exact Or.inl h1.symm
        · exact Or.inr h1

theorem nodup_keys_eq {m : List (String × Nat)} (hm : (m.map Prod.fst).Nodup)
    {e1 e2 : String × Nat} (h1 : e1 ∈ m) (h2 : e2 ∈ m) (hk : e1.1 = e2.1) : e1 = e2 := by
  have a := (cmapGet_eq_some_iff m hm e1.1 e1.2).2 h1
  have b := (cmapGet_eq_some_iff m hm e2.1 e2.2).2 h2
  rw [hk, b] at a
  have : e2.2 = e1.2 := by simpa using a
  exact Prod.ext hk this.symm

theorem idleEntry_iff (timestamp : Int) (heap : List Terminal) (uuid : String) (addr : Nat)
    (term : Terminal) (hget : heap[addr]? = some term)
    (ht : 0 ≤ timestamp ∧ timestamp < 2 ^ 63)
    (hl : 0 ≤ term.lastPack ∧ term.lastPack < 2 ^ 63) :
    idleEntry timestamp heap (uuid, addr) = true ↔ timestamp - term.lastPack > 300 := by
  simp [idleEntry, hget, wrap64_sub timestamp term.lastPack ht hl, MaxInterval]

/-- C8: one pass of `healthCheck` at time `t` over a registry with distinct
identifiers (timestamps being non-negative `int64` values): every session
with `t - lastPack > 300` is removed from the registry and its handle closed;
every session with `t - lastPack ≤ 300` is still registered under the same
identifier with its struct unchanged, and no handle other than those of the
removed sessions is closed; afterwards `InputTerminal` with a packet that has
a hex input and names a removed identifier sends the `quitTerminal`
"session closed" notification and returns no error. -/
theorem healthCheck_sweep (s : TermState) (t : Int)
    (hkeys : (s.terminals.map Prod.fst).Nodup)
    (ht : 0 ≤ t ∧ t < 2 ^ 63)
    (hlast : ∀ term ∈ s.heap, 0 ≤ term.lastPack ∧ term.lastPack < 2 ^ 63) :
    (∀ uuid addr term, cmapGet s.terminals uuid = some addr → s.heap[addr]? = some term →
      t - term.lastPack > 300 →
      cmapGet (healthCheck t s).terminals uuid = none ∧
      (∀ h, term.pty = some h → h ∈ (healthCheck t s).closed) ∧
      (∀ pack now val data, pack.input = some val → hexDecode val = some data →
        pack.terminal = some uuid →
        InputTerminal pack now (healthCheck t s)
          = (none, sendCb { act := "quitTerminal", msg := "$\x7bi18n|terminalSessionClosed\x7d" }
              pack (healthCheck t s)))) ∧
    (∀ uuid addr term, cmapGet s.terminals uuid = some addr → s.heap[addr]? = some term →
      t - term.lastPack ≤ 300 →
      cmapGet (healthCheck t s).terminals uuid = some addr ∧
      (healthCheck t s).heap[addr]? = some term) ∧
    (∀ h ∈ (healthCheck t s).closed, h ∈ s.closed ∨
      ∃ uuid addr term, cmapGet s.terminals uuid = some addr ∧ s.heap[addr]? = some term ∧
        t - term.lastPack > 300 ∧ term.pty = some h) := by
  have hmem : ∀ (addr : Nat) (term : Terminal), s.heap[addr]? = some term →
      0 ≤ term.lastPack ∧ term.lastPack < 2 ^ 63 := by
    intro addr term h
    exact hlast term (List.getElem?_mem h)
  refine ⟨?_, ?_, ?_⟩
  · intro uuid addr term hget hterm hidle
    have hin : (uuid, addr) ∈ s.terminals := (cmapGet_eq_some_iff _ hkeys uuid addr).1 hget
    have hi : idleEntry t s.heap (uuid, addr) = true :=
      (idleEntry_iff t s.heap uuid addr term hterm ht (hmem addr term hterm)).2 hidle
    have hq : uuid ∈ (s.terminals.filter (idleEntry t s.heap)).map Prod.fst :=
      List.mem_map.2 ⟨(uuid, addr), List.mem_filter.2 ⟨hin, hi⟩, rfl⟩
    have hnone : cmapGet (healthCheck t s).terminals uuid = none := by
      rw [healthCheck_eq, cmapGet_eq_none_iff]
      intro e he heq
      have := (List.mem_filter.1 he).2
      rw [heq] at this
      simp [hq] at this
    refine ⟨hnone, ?_, ?_⟩
    · intro h hp
      rw [healthCheck_eq]
      exact List.mem_append_right _
        ((killedHandles_mem_iff s.heap h _).2
          ⟨(uuid, addr), List.mem_filter.2 ⟨hin, hi⟩, term, hterm, hp⟩)
    · intro pack now val data hinput hhex hterminal
      unfold InputTerminal
      simp only [hinput, hhex, hterminal, hnone]
  · intro uuid addr term hget hterm hidle
    have hin : (uuid, addr) ∈ s.terminals := (cmapGet_eq_some_iff _ hkeys uuid addr).1 hget
    have hi : ¬ idleEntry t s.heap (uuid, addr) = true := fun h =>
      absurd ((idleEntry_iff t s.heap uuid addr term hterm ht (hmem addr term hterm)).1 h)
        (by omega)
    have hq : uuid ∉ (s.terminals.filter (idleEntry t s.heap)).map Prod.fst := by
      intro h
      obtain ⟨e, he, hek⟩ := List.mem_map.1 h
      have hem := List.mem_filter.1 he
      have : e = (uuid, addr) := nodup_keys_eq hkeys hem.1 hin hek
      rw [this] at hem
      exact hi hem.2
    rw [healthCheck_eq]
    refine ⟨?_, hterm⟩
    have hsub : ((s.terminals.filter (fun e =>
        decide (e.1 ∉ (s.terminals.filter (idleEntry t s.heap)).map Prod.fst))).map
          Prod.fst).Nodup :=
      List.Nodup.sublist (List.Sublist.map _ (List.filter_sublist _)) hkeys
    exact (cmapGet_eq_some_iff _ hsub uuid addr).2
      (List.mem_filter.2 ⟨hin, by simpa using hq⟩)
  · intro h hh
    rw [healthCheck_eq] at hh
    rcases List.mem_append.1 hh with h1 | h1
    · exact Or.inl h1
    · obtain ⟨e, he, term, hterm, hp⟩ := (killedHandles_mem_iff s.heap h _).1 h1
      have hem := List.mem_filter.1 he
      refine Or.inr ⟨e.1, e.2, term, (cmapGet_eq_some_iff _ hkeys e.1 e.2).2 hem.1, hterm, ?_, hp⟩
      exact (idleEntry_iff t s.heap e.1 e.2 term hterm ht (hmem e.2 term hterm)).1 hem.2

/-- C8 at a concrete input: at time 1301 the session `old` (idle for 301 s) is
removed and its handle closed, `fresh` (idle for 101 s) stays. -/
theorem healthCheck_sweep_witness :
    cmapGet (healthCheck 1301 termExampleState).terminals "old" = none ∧
    7 ∈ (healthCheck 1301 termExampleState).closed ∧
    cmapGet (healthCheck 1301 termExampleState).terminals "fresh" = some 1 := by
  have h := healthCheck_sweep termExampleState 1301 (by decide) (by decide)
    (fun term hterm => by
      have : term = ⟨1000, "e1", some 7⟩ ∨ term = ⟨1200, "e2", some 8⟩ := by
        simpa [termExampleState] using hterm
      rcases this with h | h <;> subst h <;> decide)
  obtain ⟨h1, h2, _⟩ := h
  obtain ⟨a, b, _⟩ := h1 "old" 0 ⟨1000, "e1", some 7⟩ (by decide) (by decide) (by decide)
  exact ⟨a, b (7 : Nat) rfl, (h2 "fresh" 1 ⟨1200, "e2", some 8⟩ (by decide) (by decide)
    (by decide)).1⟩

/-- C9 refuted at a concrete input: the session `t1` is started by
`InitTerminal`, `KillTerminal` closes its handle and the pump's read then
fails.  The pump sends a `quitTerminal` packet without message and stops, but
the session is still in the registry: `InputTerminal` for `t1` finds it and
sends no "session closed" notification. -/
theorem pump_failure_keeps_session :
    ¬ (cmapGet (pumpStep 0 termExamplePacket [] true 1001
        (KillTerminal termExamplePacket
          (InitTerminal termExamplePacket (some 7) 1000 {}).2).2).1.terminals "t1" = none) ∧
    (pumpStep 0 termExamplePacket [] true 1001
        (KillTerminal termExamplePacket
          (InitTerminal termExamplePacket (some 7) 1000 {}).2).2).1.sent
      = [{ act := "outputTerminal", event := "ev", output := some "" },
         { act := "quitTerminal", event := "ev" }] ∧
    (InputTerminal termExamplePacket 1002
        (pumpStep 0 termExamplePacket [] true 1001
          (KillTerminal termExamplePacket
            (InitTerminal termExamplePacket (some 7) 1000 {}).2).2).1).2.sent
      = [{ act := "outputTerminal", event := "ev", output := some "" },
         { act := "quitTerminal", event := "ev" }] := by
  decide

/-- C9 as amended: `InitTerminal` registers the new session under the packet's
identifier; `KillTerminal` closes the handle and leaves the registry as it is;
when the pump's read returns an error or EOF, the pump sends the last
`outputTerminal` packet and then a `quitTerminal` packet that carries no
message, and stops; the registry is unchanged by this, so a later lookup of
the identifier still finds the session: `InputTerminal`, `ResizeTerminal` and
`KillTerminal` for a registered identifier return no error and send no
notification. -/
theorem pump_failure_leaves_registry :
    (∀ (s : TermState) (pack : Packet) (uuid : String) (h : Nat) (now : Int),
      pack.terminal = some uuid →
      cmapGet (InitTerminal pack (some h) now s).2.terminals uuid = some s.heap.length ∧
      (InitTerminal pack (some h) now s).2.heap[s.heap.length]?
        = some ⟨now, pack.event, some h⟩) ∧
    (∀ (s : TermState) (pack : Packet), (KillTerminal pack s).2.terminals = s.terminals) ∧
    (∀ (s : TermState) (addr : Nat) (pack : Packet) (data : List Nat) (now : Int),
      (pumpStep addr pack data true now s).2 = false ∧
      (pumpStep addr pack data true now s).1.sent
        = s.sent ++ [{ act := "outputTerminal", event := pack.event,
                       output := some (hexEncode data) },
                     { act := "quitTerminal", msg := "", event := pack.event }] ∧
      (pumpStep addr pack data true now s).1.terminals = s.terminals ∧
      ∀ uuid, cmapGet (pumpStep addr pack data true now s).1.terminals uuid
        = cmapGet s.terminals uuid) ∧
    (∀ (s : TermState) (pack : Packet) (uuid : String) (addr : Nat),
      pack.terminal = some uuid → cmapGet s.terminals uuid = some addr →
      (∀ now val data, pack.input = some val → hexDecode val = some data →
        (InputTerminal pack now s).1 = none ∧ (InputTerminal pack now s).2.sent = s.sent) ∧
      (∀ w h, pack.width = some w → pack.height = some h →
        (ResizeTerminal pack s).1 = none ∧ (ResizeTerminal pack s).2.sent = s.sent) ∧
      (KillTerminal pack s).1 = none ∧ (KillTerminal pack s).2.sent = s.sent) := by
  refine ⟨?_, ?_, ?_, ?_⟩
  · intro s pack uuid h now hterm
    simp [InitTerminal, hterm, cmapSet, cmapGet]
  · intro s pack
    unfold KillTerminal
    cases pack.terminal with
    | none => rfl
    | some uuid =>
      cases hg : cmapGet s.terminals uuid with
      | none => simp only [hg, sendCb]
      | some addr =>
        cases hh : s.heap[addr]? <;> simp only [hg, hh]
  · intro s addr pack data now
    simp [pumpStep, sendCb]
  · intro s pack uuid addr hterm hget
    refine ⟨?_, ?_, ?_⟩
    · intro now val data hin hhex
      unfold InputTerminal
      simp only [hin, hhex, hterm, hget]
      cases hp : (s.heap[addr]?).bind Terminal.pty with
      | none => simp
      | some h => by_cases hc : h ∈ s.closed <;> simp [hc]
    · intro w h hw hh
      unfold ResizeTerminal
      simp only [hw, hh, hterm, hget]
      cases hp : (s.heap[addr]?).bind Terminal.pty with
      | none => simp
      | some h2 => by_cases hc : h2 ∈ s.closed <;> simp [hc]
    · unfold KillTerminal
      simp only [hterm, hget]
      cases hh : s.heap[addr]? <;> simp

/-! ## Theorems: `uploadMulti` -/

/-- The read loop of `archiveFile` does not depend on the fuel once the fuel
exceeds the number of bytes left: `len(content) + 1` iterations are enough. -/
theorem archiveLoop_fuel (env : MultiEnv) (path : String) (content : List Nat) :
    ∀ (fuel pos k : Nat) (s : MultiState), content.length - pos < fuel →
      archiveLoop env path content fuel pos k s
        = archiveLoop env path content (fuel + 1) pos k s := by
  intro fuel
  induction fuel with
  | zero => intro pos k s h; omega
  | succ fuel ih =>
    intro pos k s h
    rw [archiveLoop, archiveLoop]
    by_cases hr : env.readErr path = some k
    · simp only [hr, if_true]
    · simp only [hr, if_false]
      by_cases hb : ((content.drop pos).take 32768).length = 0
      · simp only [hb, if_true]
      · simp only [hb, if_false]
        have hlen : 1 ≤ ((content.drop pos).take 32768).length := by omega
        have hle : ((content.drop pos).take 32768).length ≤ content.length - pos := by
          simp only [List.length_take, List.length_drop]
          omega
        cases hw : s.writesLeft with
        | none => exact ih _ _ _ (by omega)
        | some n =>
          cases n with
          | zero => rfl
          | succ m => exact ih _ _ _ (by omega)

theorem stepSpare_none_of_idle (s : MultiState) (i : Nat)
    (h : s.spares.all (fun sp => sp.2.isEmpty) = true) : stepSpare s i = none := by
  unfold stepSpare
  cases hi : s.spares[i]? with
  | none => rfl
  | some sp =>
    obtain ⟨pc, jobs⟩ := sp
    have hmem : (pc, jobs) ∈ s.spares := List.getElem?_mem hi
    have hj : jobs = [] := by
      have := (List.all_eq_true.1 h) _ hmem
      simpa [List.isEmpty_iff] using this
    subst hj
    cases pc <;> rfl

theorem stepSeeder_none_of_finished (env : MultiEnv) (s : MultiState)
    (h : s.seeder = SeederPC.finished) : stepSeeder env s = none := by
  unfold stepSeeder
  simp [h]

/-- From a state of a set that is closed under the consumer's steps, every
schedule stays in the set. -/
theorem runMulti_mem_of_closed (env : MultiEnv) (states : List MultiState)
    (hclosed : closedUnderConsumer env states = true) :
    ∀ (sched : List Tid) (s : MultiState), s ∈ states → runMulti env s sched ∈ states := by
  intro sched
  induction sched with
  | nil => intro s hs; exact hs
  | cons t rest ih =>
    intro s hs
    have hall := (List.all_eq_true.1 hclosed) s hs
    simp only [Bool.and_eq_true, decide_eq_true_eq] at hall
    obtain ⟨⟨hseed, hspare⟩, hstep⟩ := hall
    rw [runMulti]
    cases t with
    | seeder =>
      simp only [stepMulti, stepSeeder_none_of_finished env s hseed]
      exact ih s hs
    | spare i =>
      simp only [stepMulti, stepSpare_none_of_idle s i hspare]
      exact ih s hs
    | consumer =>
      simp only [stepMulti]
      cases hc : stepConsumer env s with
      | none => exact ih s hs
      | some s' =>
        rw [hc] at hstep
        exact ih s' (by simpa using hstep)

/-- A consumer blocked in `_, _ = <-queue` on an empty open queue stays
blocked under every schedule when no goroutine has anything left to send. -/
theorem runMulti_blocked (env : MultiEnv) (s : MultiState)
    (hc : s.consumer = ConsumerPC.recvDiscard) (hq : s.queue = [])
    (hcl : s.queueClosed = false) (hs : s.seeder = SeederPC.finished)
    (hsp : s.spares.all (fun sp => sp.2.isEmpty) = true) :
    ∀ sched : List Tid, runMulti env s sched = s := by
  intro sched
  induction sched with
  | nil => rfl
  | cons t rest ih =>
    rw [runMulti]
    have hnone : stepMulti env s t = none := by
      cases t with
      | seeder => exact stepSeeder_none_of_finished env s hs
      | spare i => exact stepSpare_none_of_idle s i hsp
      | consumer => simp [stepMulti, stepConsumer, hc, hq, hcl]
    rw [hnone]
    exact ih

/-- From the `select` on an empty open queue, with no goroutine having
anything left to send, the consumer sets `escape`, blocks in `<-queue`, and
the archive is never finalized. -/
theorem runMulti_empty_queue (env : MultiEnv) (s : MultiState)
    (hc : s.consumer = ConsumerPC.atSelect) (hq : s.queue = [])
    (hcl : s.queueClosed = false) (hs : s.seeder = SeederPC.finished)
    (hsp : s.spares.all (fun sp => sp.2.isEmpty) = true) :
    ∀ sched : List Tid, runMulti env s sched = s ∨
      runMulti env s sched = { s with escape := true, consumer := ConsumerPC.recvDiscard } := by
  intro sched
  induction sched with
  | nil => exact Or.inl rfl
  | cons t rest ih =>
    rw [runMulti]
    cases t with
    | seeder =>
      simp only [stepMulti, stepSeeder_none_of_finished env s hs]
      exact ih
    | spare i =>
      simp only [stepMulti, stepSpare_none_of_idle s i hsp]
      exact ih
    | consumer =>
      have hstep : stepConsumer env s
          = some { s with escape := true, consumer := ConsumerPC.recvDiscard } := by
        simp [stepConsumer, hc, hq, hcl]
      simp only [stepMulti, hstep]
      exact Or.inr (runMulti_blocked env
        { s with escape := true, consumer := ConsumerPC.recvDiscard } rfl hq hcl hs hsp rest)

/-- After a job during which `escape` was set, on an empty open queue with no
goroutine having anything left to send, the consumer blocks in `<-queue`. -/
theorem runMulti_escape_empty_queue (env : MultiEnv) (s : MultiState)
    (hc : s.consumer = ConsumerPC.afterHandle) (he : s.escape = true) (hq : s.queue = [])
    (hcl : s.queueClosed = false) (hs : s.seeder = SeederPC.finished)
    (hsp : s.spares.all (fun sp => sp.2.isEmpty) = true) :
    ∀ sched : List Tid, runMulti env s sched = s ∨
      runMulti env s sched = { s with consumer := ConsumerPC.recvDiscard } := by
  intro sched
  induction sched with
  | nil => exact Or.inl rfl
  | cons t rest ih =>
    rw [runMulti]
    cases t with
    | seeder =>
      simp only [stepMulti, stepSeeder_none_of_finished env s hs]
      exact ih
    | spare i =>
      simp only [stepMulti, stepSpare_none_of_idle s i hsp]
      exact ih
    | consumer =>
      have hstep : stepConsumer env s = some { s with consumer := ConsumerPC.recvDiscard } := by
        simp [stepConsumer, hc, he]
      simp only [stepMulti, hstep]
      exact Or.inr (runMulti_blocked env
        { s with consumer := ConsumerPC.recvDiscard } rfl hq hcl hs hsp rest)

/-- C1, the code at a failing input: 65 readable regular files `f0`..`f64`,
no failure anywhere.  Under `lateSeederSchedule` the archive is finalized
(zip writer and pipe closed) with 64 entries: `f64` has no entry, the failure
list is empty and no comment is written. -/
theorem uploadMulti_omits_late_file :
    (runMulti (flatEnv manyFiles) (uploadMulti (flatEnv manyFiles) manyFiles none)
      lateSeederSchedule).zipClosed = true ∧
    (runMulti (flatEnv manyFiles) (uploadMulti (flatEnv manyFiles) manyFiles none)
      lateSeederSchedule).pipeClosed = true ∧
    (runMulti (flatEnv manyFiles) (uploadMulti (flatEnv manyFiles) manyFiles none)
      lateSeederSchedule).entries.length = 64 ∧
    "f64" ∉ (runMulti (flatEnv manyFiles) (uploadMulti (flatEnv manyFiles) manyFiles none)
      lateSeederSchedule).entries.map Prod.fst ∧
    (runMulti (flatEnv manyFiles) (uploadMulti (flatEnv manyFiles) manyFiles none)
      lateSeederSchedule).fails = [] ∧
    (runMulti (flatEnv manyFiles) (uploadMulti (flatEnv manyFiles) manyFiles none)
      lateSeederSchedule).comment = none ∧
    manyFiles.length = 65 ∧
    (∀ p ∈ manyFiles, (flatEnv manyFiles).stat p = some ⟨p, false⟩ ∧
      ((flatEnv manyFiles).openFile p).isSome = true) := by
  decide!

/-- C2, the code at a failing input: one readable regular file `a`, no
failure anywhere.  Under every schedule the zip writer and the pipe are never
closed and the consumer never finishes; after seven steps the consumer has
archived `a`, has found the queue empty and is blocked in `<-queue`.  The same
holds from every state in which the consumer reaches its `select` with the
queue empty and open and no goroutine has anything left to send: the archive,
if open, stays open under every schedule. -/
theorem uploadMulti_single_file_never_finalizes :
    (∀ (env : MultiEnv) (s : MultiState), s.consumer = ConsumerPC.atSelect → s.queue = [] →
      s.queueClosed = false → s.seeder = SeederPC.finished →
      s.spares.all (fun sp => sp.2.isEmpty) = true →
      s.zipClosed = false → s.pipeClosed = false →
      ∀ sched : List Tid, (runMulti env s sched).zipClosed = false ∧
        (runMulti env s sched).pipeClosed = false ∧
        (runMulti env s sched).consumer ≠ ConsumerPC.finished) ∧
    (∀ sched : List Tid,
      (runMulti (flatEnv ["a"]) (uploadMulti (flatEnv ["a"]) ["a"] none) sched).zipClosed = false ∧
      (runMulti (flatEnv ["a"]) (uploadMulti (flatEnv ["a"]) ["a"] none) sched).pipeClosed = false ∧
      (runMulti (flatEnv ["a"]) (uploadMulti (flatEnv ["a"]) ["a"] none) sched).consumer
        ≠ ConsumerPC.finished) ∧
    (runMulti (flatEnv ["a"]) (uploadMulti (flatEnv ["a"]) ["a"] none)
      (List.replicate 7 Tid.consumer)).entries = [("a", [1])] ∧
    (runMulti (flatEnv ["a"]) (uploadMulti (flatEnv ["a"]) ["a"] none)
      (List.replicate 7 Tid.consumer)).queue = [] ∧
    (runMulti (flatEnv ["a"]) (uploadMulti (flatEnv ["a"]) ["a"] none)
      (List.replicate 7 Tid.consumer)).consumer = ConsumerPC.recvDiscard ∧
    (∀ t, stepMulti (flatEnv ["a"])
      (runMulti (flatEnv ["a"]) (uploadMulti (flatEnv ["a"]) ["a"] none)
        (List.replicate 7 Tid.consumer)) t = none) := by
  have hclosed : closedUnderConsumer (flatEnv ["a"])
      (consumerStates (flatEnv ["a"]) 8 (uploadMulti (flatEnv ["a"]) ["a"] none)) = true := by
    decide
  have hinit : uploadMulti (flatEnv ["a"]) ["a"] none ∈
      consumerStates (flatEnv ["a"]) 8 (uploadMulti (flatEnv ["a"]) ["a"] none) := by
    decide
  have hall : ∀ s ∈ consumerStates (flatEnv ["a"]) 8 (uploadMulti (flatEnv ["a"]) ["a"] none),
      s.zipClosed = false ∧ s.pipeClosed = false ∧ s.consumer ≠ ConsumerPC.finished := by
    decide
  refine ⟨?_, fun sched => hall _ (runMulti_mem_of_closed _ _ hclosed sched _ hinit),
    by decide, by decide, by decide, ?_⟩
  · intro env s hc hq hcl hs hsp hz hp sched
    rcases runMulti_empty_queue env s hc hq hcl hs hsp sched with h | h
    · rw [h]; exact ⟨hz, hp, by rw [hc]; simp⟩
    · rw [h]; exact ⟨hz, hp, by simp⟩
  intro t
  cases t with
  | seeder => decide
  | consumer => decide
  | spare i =>
    exact stepSpare_none_of_idle
      (runMulti (flatEnv ["a"]) (uploadMulti (flatEnv ["a"]) ["a"] none)
        (List.replicate 7 Tid.consumer)) i (by decide)

/-- C6, the code at a failing input: the directory `d` holds the readable
files `x` and `y`, and the first write into the archive fails.  After four
steps of the consumer the failing path `d/x` is recorded and `escape` is set;
`d/y` is never opened (it never gets an entry); but under every schedule the
zip writer and the pipe are never closed: after seven steps the consumer is
blocked in `<-queue` and no goroutine can move.  The same holds from every
state in which the consumer comes back from a job with `escape` set, the queue
empty and open and no goroutine having anything left to send. -/
theorem uploadMulti_write_failure_never_finalizes :
    (∀ (env : MultiEnv) (s : MultiState), s.consumer = ConsumerPC.afterHandle →
      s.escape = true → s.queue = [] →
      s.queueClosed = false → s.seeder = SeederPC.finished →
      s.spares.all (fun sp => sp.2.isEmpty) = true →
      s.zipClosed = false → s.pipeClosed = false →
      ∀ sched : List Tid, (runMulti env s sched).zipClosed = false ∧
        (runMulti env s sched).pipeClosed = false ∧
        (runMulti env s sched).consumer ≠ ConsumerPC.finished) ∧
    (runMulti dirEnv (uploadMulti dirEnv ["d"] (some 0)) (List.replicate 4 Tid.consumer)).fails
      = ["d/x"] ∧
    (runMulti dirEnv (uploadMulti dirEnv ["d"] (some 0)) (List.replicate 4 Tid.consumer)).escape
      = true ∧
    (∀ sched : List Tid,
      (runMulti dirEnv (uploadMulti dirEnv ["d"] (some 0)) sched).zipClosed = false ∧
      (runMulti dirEnv (uploadMulti dirEnv ["d"] (some 0)) sched).pipeClosed = false ∧
      (runMulti dirEnv (uploadMulti dirEnv ["d"] (some 0)) sched).consumer
        ≠ ConsumerPC.finished ∧
      "d/y" ∉ (runMulti dirEnv (uploadMulti dirEnv ["d"] (some 0)) sched).entries.map Prod.fst) ∧
    (runMulti dirEnv (uploadMulti dirEnv ["d"] (some 0)) (List.replicate 7 Tid.consumer)).consumer
      = ConsumerPC.recvDiscard ∧
    (∀ t, stepMulti dirEnv
      (runMulti dirEnv (uploadMulti dirEnv ["d"] (some 0)) (List.replicate 7 Tid.consumer)) t
        = none) := by
  have hclosed : closedUnderConsumer dirEnv
      (consumerStates dirEnv 8 (uploadMulti dirEnv ["d"] (some 0))) = true := by
    decide
  have hinit : uploadMulti dirEnv ["d"] (some 0) ∈
      consumerStates dirEnv 8 (uploadMulti dirEnv ["d"] (some 0)) := by
    decide
  have hall : ∀ s ∈ consumerStates dirEnv 8 (uploadMulti dirEnv ["d"] (some 0)),
      s.zipClosed = false ∧ s.pipeClosed = false ∧ s.consumer ≠ ConsumerPC.finished ∧
        "d/y" ∉ s.entries.map Prod.fst := by
    decide
  refine ⟨?_, by decide, by decide,
    fun sched => hall _ (runMulti_mem_of_closed _ _ hclosed sched _ hinit), by decide, ?_⟩
  · intro env s hc he hq hcl hs hsp hz hp sched
    rcases runMulti_escape_empty_queue env s hc he hq hcl hs hsp sched with h | h
    · rw [h]; exact ⟨hz, hp, by rw [hc]; simp⟩
    · rw [h]; exact ⟨hz, hp, by simp⟩
  intro t
  cases t with
  | seeder => decide
  | consumer => decide
  | spare i =>
    exact stepSpare_none_of_idle
      (runMulti dirEnv (uploadMulti dirEnv ["d"] (some 0)) (List.replicate 7 Tid.consumer)) i
      (by decide)

/-- C7, the code at a failing input: the inputs are `missing`, which fails to
stat, and the readable regular file `a`.  `missing` is recorded in the failure
list, but `a` is never enqueued: under every schedule the queue stays empty
and the archive has no entry. -/
theorem uploadMulti_stat_failure_drops_rest :
    (uploadMulti (flatEnv ["a"]) ["missing", "a"] none).fails = ["missing"] ∧
    (flatEnv ["a"]).stat "missing" = none ∧
    (flatEnv ["a"]).stat "a" = some ⟨"a", false⟩ ∧
    (flatEnv ["a"]).openFile "a" = some [1] ∧
    (∀ sched : List Tid,
      (runMulti (flatEnv ["a"]) (uploadMulti (flatEnv ["a"]) ["missing", "a"] none) sched).queue
        = [] ∧
      (runMulti (flatEnv ["a"]) (uploadMulti (flatEnv ["a"]) ["missing", "a"] none) sched).entries
        = [] ∧
      (runMulti (flatEnv ["a"]) (uploadMulti (flatEnv ["a"]) ["missing", "a"] none) sched).seeder
        = SeederPC.finished) := by
  have hclosed : closedUnderConsumer (flatEnv ["a"])
      (consumerStates (flatEnv ["a"]) 3 (uploadMulti (flatEnv ["a"]) ["missing", "a"] none))
        = true := by
    decide
  have hinit : uploadMulti (flatEnv ["a"]) ["missing", "a"] none ∈
      consumerStates (flatEnv ["a"]) 3 (uploadMulti (flatEnv ["a"]) ["missing", "a"] none) := by
    decide
  have hall : ∀ s ∈ consumerStates (flatEnv ["a"]) 3
      (uploadMulti (flatEnv ["a"]) ["missing", "a"] none),
      s.queue = [] ∧ s.entries = [] ∧ s.seeder = SeederPC.finished := by
    decide
  exact ⟨by decide, by decide, by decide, by decide,
    fun sched => hall _ (runMulti_mem_of_closed _ _ hclosed sched _ hinit)⟩

/-! ## Theorems: `getScreenshot` -/

theorem runShot_append (s : ShotState) (a b : List ShotAction) :
    runShot s (a ++ b) = runShot (runShot s a) b := by
  simp [runShot, List.foldl_append]

theorem runShot_cons (s : ShotState) (a : ShotAction) (rest : List ShotAction) :
    runShot s (a :: rest) = runShot (stepShot s a) rest := rfl

theorem noErrorCallback_cons {a : ShotAction} {rest : List ShotAction}
    (h : noErrorCallback (a :: rest)) :
    (a ≠ ShotAction.errorEvent ∧ a ≠ ShotAction.errorRest) ∧ noErrorCallback rest :=
  ⟨h a (by simp), fun b hb => h b (by simp [hb])⟩

theorem noErrorCallback_append {a b : List ShotAction} (h : noErrorCallback (a ++ b)) :
    noErrorCallback a ∧ noErrorCallback b :=
  ⟨fun x hx => h x (by simp [hx]), fun x hx => h x (by simp [hx])⟩

/-- A property kept by every step other than the error callback's holds after
every run without them. -/
theorem runShot_preserves (P : ShotState → Prop)
    (hstep : ∀ s a, a ≠ ShotAction.errorEvent → a ≠ ShotAction.errorRest → P s →
      P (stepShot s a)) :
    ∀ (steps : List ShotAction) (s : ShotState), noErrorCallback steps → P s →
      P (runShot s steps) := by
  intro steps
  induction steps with
  | nil => intro s _ h; exact h
  | cons a rest ih =>
    intro s hne h
    obtain ⟨ha, hrest⟩ := noErrorCallback_cons hne
    rw [runShot_cons]
    exact ih _ hrest (hstep s a ha.1 ha.2 h)

theorem shotInv_step (s : ShotState) (a : ShotAction) (h1 : a ≠ ShotAction.errorEvent)
    (h2 : a ≠ ShotAction.errorRest) (h : ShotInv s) : ShotInv (stepShot s a) := by
  obtain ⟨⟨e1, e2, e3⟩, hrun, hend, hwait⟩ := h
  cases a with
  | errorEvent => exact absurd rfl h1
  | errorRest => exact absurd rfl h2
  | push =>
    constructor <;> simp_all [stepShot, removeEvent]
    intro hp
    rcases (hend hp).1 with h | h
    · exact Or.inl ⟨h.1, h.2.1, h.2.2.1⟩
    · exact Or.inr h
  | finish =>
    by_cases hc : s.waitClosed = true
    · constructor <;> simp_all [stepShot]
    · have hpc : s.pc ≠ ShotPC.returned := fun hp => hc (hend hp).2.1
      constructor <;> simp_all [stepShot]
  | timer =>
    constructor <;> simp_all [stepShot]
  | handler b =>
    cases hpc : s.pc with
    | returned =>
      have : stepShot s (ShotAction.handler b) = s := by simp [stepShot, stepHandler, hpc]
      rw [this]
      exact ⟨⟨e1, e2, e3⟩, hrun, hend, hwait⟩
    | waitFinish =>
      have hr := hrun (by simp [hpc])
      by_cases hf : s.finishSend > 0
      · constructor <;>
          simp_all [stepShot, stepHandler, closeWait, receiveWait]
      · have : stepShot s (ShotAction.handler b) = s := by
          simp [stepShot, stepHandler, hpc, hf, e1]
        rw [this]
        exact ⟨⟨e1, e2, e3⟩, hrun, hend, hwait⟩
    | atSelect =>
      have hr := hrun (by simp [hpc])
      by_cases hf : s.finishSend > 0 <;> by_cases ht : s.timer = true <;>
        by_cases hb : b = true <;> by_cases hcl : s.called = true <;>
        constructor <;>
          simp_all [stepShot, stepHandler, closeWait, receiveWait, removeEvent, removeBridge]

theorem runShot_preserves_all (P : ShotState → Prop)
    (hstep : ∀ s a, P s → P (stepShot s a)) :
    ∀ (steps : List ShotAction) (s : ShotState), P s → P (runShot s steps) := by
  intro steps
  induction steps with
  | nil => intro s h; exact h
  | cons a rest ih => intro s h; exact ih _ (hstep s a h)

theorem shotInv_init : ShotInv shotInit := by
  constructor <;> simp [shotInit]

theorem shotInv_run (steps : List ShotAction) (hne : noErrorCallback steps) :
    ShotInv (runShot shotInit steps) :=
  runShot_preserves ShotInv shotInv_step steps shotInit hne shotInv_init

theorem called_step (s : ShotState) (a : ShotAction) (h : s.called = true) :
    (stepShot s a).called = true := by
  cases a <;> simp [stepShot, stepHandler, closeWait, receiveWait, removeEvent, removeBridge]
    <;> (repeat' split) <;> simp_all

theorem timer_step (s : ShotState) (a : ShotAction) (h : s.timer = true) :
    (stepShot s a).timer = true := by
  cases a <;> simp [stepShot, stepHandler, closeWait, receiveWait, removeEvent, removeBridge]
    <;> (repeat' split) <;> simp_all

theorem timeouts_step (s : ShotState) (a : ShotAction) (h : 1 ≤ s.timeouts) :
    1 ≤ (stepShot s a).timeouts := by
  cases a <;> simp [stepShot, stepHandler, closeWait, receiveWait, removeEvent, removeBridge]
    <;> (repeat' split) <;> simp_all

theorem removed_step (s : ShotState) (a : ShotAction) (h : s.bridge = false ∧ s.event = false) :
    (stepShot s a).bridge = false ∧ (stepShot s a).event = false := by
  cases a <;> simp [stepShot, stepHandler, closeWait, receiveWait, removeEvent, removeBridge]
    <;> (repeat' split) <;> simp_all

theorem pushed_step (s : ShotState) (a : ShotAction) (h1 : a ≠ ShotAction.errorEvent)
    (h2 : a ≠ ShotAction.errorRest) (h : s.called = true ∧ s.timeouts = 0) :
    (stepShot s a).called = true ∧ (stepShot s a).timeouts = 0 := by
  cases a <;> simp [stepShot, stepHandler, closeWait, receiveWait, removeEvent, removeBridge]
    <;> (repeat' split) <;> simp_all

theorem called_of_push : ∀ (steps : List ShotAction) (s : ShotState),
    ShotAction.push ∈ steps → (runShot s steps).called = true := by
  intro steps
  induction steps with
  | nil => intro s h; simp at h
  | cons a rest ih =>
    intro s h
    rw [runShot_cons]
    rcases List.mem_cons.1 h with h | h
    · subst h
      exact runShot_preserves_all (fun s => s.called = true) called_step rest _
        (by simp [stepShot, removeEvent])
    · exact ih _ h

theorem timer_of_timer : ∀ (steps : List ShotAction) (s : ShotState),
    ShotAction.timer ∈ steps → (runShot s steps).timer = true := by
  intro steps
  induction steps with
  | nil => intro s h; simp at h
  | cons a rest ih =>
    intro s h
    rw [runShot_cons]
    rcases List.mem_cons.1 h with h | h
    · subst h
      exact runShot_preserves_all (fun s => s.timer = true) timer_step rest _
        (by simp [stepShot])
    · exact ih _ h

theorem not_called_of_no_push : ∀ (steps : List ShotAction) (s : ShotState),
    noErrorCallback steps → ShotAction.push ∉ steps → s.called = false →
    (runShot s steps).called = false := by
  intro steps
  induction steps with
  | nil => intro s _ _ h; exact h
  | cons a rest ih =>
    intro s hne hp h
    obtain ⟨ha, hrest⟩ := noErrorCallback_cons hne
    rw [runShot_cons]
    apply ih _ hrest (fun hm => hp (by simp [hm]))
    have hpush : a ≠ ShotAction.push := fun hm => hp (by simp [hm])
    cases a <;> simp [stepShot, stepHandler, closeWait, receiveWait, removeEvent, removeBridge]
      <;> (repeat' split) <;> simp_all

/-- Once `OnFinish` has reached its send, the handler has returned or a
sender is blocked on `wait`. -/
theorem finish_pending_step (s : ShotState) (a : ShotAction) (h1 : a ≠ ShotAction.errorEvent)
    (h2 : a ≠ ShotAction.errorRest)
    (h : ShotInv s ∧ (s.pc = ShotPC.returned ∨ s.finishSend > 0)) :
    ShotInv (stepShot s a) ∧
      ((stepShot s a).pc = ShotPC.returned ∨ (stepShot s a).finishSend > 0) := by
  refine ⟨shotInv_step s a h1 h2 h.1, ?_⟩
  obtain ⟨⟨⟨e1, e2, e3⟩, hrun, hend, hwait⟩, hq⟩ := h
  cases a with
  | errorEvent => exact absurd rfl h1
  | errorRest => exact absurd rfl h2
  | push => simpa [stepShot, removeEvent] using hq
  | timer => simpa [stepShot] using hq
  | finish =>
    by_cases hc : s.waitClosed = true
    · rcases hq with hq | hq
      · left; simp [stepShot, hc, hq]
      · by_cases hp : s.pc = ShotPC.returned
        · left; simp [stepShot, hc, hp]
        · exact absurd hc (by simp [(hrun hp).2.2])
    · right; simp [stepShot, hc]
  | handler b =>
    rcases hq with hq | hq
    · left; simp [stepShot, stepHandler, hq]
    · cases hpc : s.pc with
      | returned => left; simp [stepShot, stepHandler, hpc]
      | waitFinish => left; simp [stepShot, stepHandler, hpc, hq]
      | atSelect =>
        by_cases ht : s.timer = true <;> by_cases hb : b = true <;>
          by_cases hcl : s.called = true <;>
          simp_all [stepShot, stepHandler, closeWait, receiveWait, removeEvent, removeBridge]

theorem pending_of_finish : ∀ (steps : List ShotAction) (s : ShotState),
    noErrorCallback steps → ShotAction.finish ∈ steps → ShotInv s →
    (runShot s steps).pc = ShotPC.returned ∨ (runShot s steps).finishSend > 0 := by
  intro steps
  induction steps with
  | nil => intro s _ h; simp at h
  | cons a rest ih =>
    intro s hne h hinv
    obtain ⟨ha, hrest⟩ := noErrorCallback_cons hne
    rw [runShot_cons]
    rcases List.mem_cons.1 h with h | h
    · subst h
      have h0 : ShotInv (stepShot s ShotAction.finish) ∧
          ((stepShot s ShotAction.finish).pc = ShotPC.returned ∨
            (stepShot s ShotAction.finish).finishSend > 0) := by
        refine ⟨shotInv_step s _ ha.1 ha.2 hinv, ?_⟩
        by_cases hc : s.waitClosed = true
        · by_cases hp : s.pc = ShotPC.returned
          · left; simp [stepShot, hc, hp]
          · exact absurd hc (by simp [(hinv.running hp).2.2])
        · right; simp [stepShot, hc]
      exact (runShot_preserves (fun s => ShotInv s ∧ (s.pc = ShotPC.returned ∨ s.finishSend > 0))
        finish_pending_step rest _ hrest h0).2
    · exact ih _ hrest h (shotInv_step s a ha.1 ha.2 hinv)

/-- What the timer case does when `OnPush` has not run: the timeout path. -/
theorem stepHandler_timeout (s : ShotState) (b : Bool) (h : takesTimer s b)
    (hcalled : s.called = false) (hzero : s.timeouts = 0) :
    (stepShot s (ShotAction.handler b)).timeouts = 1 ∧
    (stepShot s (ShotAction.handler b)).pc = ShotPC.returned ∧
    (stepShot s (ShotAction.handler b)).bridge = false ∧
    (stepShot s (ShotAction.handler b)).event = false := by
  obtain ⟨hpc, ht, hb⟩ := h
  rcases hb with ⟨h1, h2⟩ | hb
  · simp [stepShot, stepHandler, hpc, ht, h1, h2, hcalled, hzero, closeWait, removeEvent,
      removeBridge]
  · simp [stepShot, stepHandler, hpc, ht, hb, hcalled, hzero, closeWait, removeEvent,
      removeBridge]

/-- What the timer case does when `OnPush` has run: it waits for `OnFinish`. -/
theorem stepHandler_wait (s : ShotState) (b : Bool) (h : takesTimer s b)
    (hcalled : s.called = true) :
    stepShot s (ShotAction.handler b) = { s with pc := ShotPC.waitFinish } := by
  obtain ⟨hpc, ht, hb⟩ := h
  rcases hb with ⟨h1, h2⟩ | hb
  · simp [stepShot, stepHandler, hpc, ht, h1, h2, hcalled]
  · simp [stepShot, stepHandler, hpc, ht, hb, hcalled]

/-- C10: a `getScreenshot` call that has reached its `select`, the callbacks
`OnPush` and `OnFinish`, the timer and the handler's steps occurring in any
order (the event callback for a client error does not run).  At most one
gateway-timeout response is written and never together with a completion;
when the handler has returned, exactly one of the two has happened, and
before that neither.  When the handler runs the timer case before any
`OnPush`, the bridge and the trigger event are removed and the response is
aborted once with the gateway-timeout status; when `OnPush` has run before,
no timeout response is ever written and the handler returns only having
received from `OnFinish`.  Once the timer has fired and `OnFinish` has been
called, two steps of the handler are enough for it to return. -/
theorem getScreenshot_outcome (steps : List ShotAction) (hne : noErrorCallback steps) :
    (runShot shotInit steps).timeouts ≤ 1 ∧
    ¬ ((runShot shotInit steps).timeouts = 1 ∧ (runShot shotInit steps).finished = true) ∧
    ((runShot shotInit steps).pc = ShotPC.returned →
      ((runShot shotInit steps).timeouts = 1 ∧ (runShot shotInit steps).finished = false ∧
          (runShot shotInit steps).bridge = false ∧ (runShot shotInit steps).event = false) ∨
        ((runShot shotInit steps).timeouts = 0 ∧ (runShot shotInit steps).finished = true)) ∧
    ((runShot shotInit steps).pc ≠ ShotPC.returned →
      (runShot shotInit steps).timeouts = 0 ∧ (runShot shotInit steps).finished = false) ∧
    (∀ pre b post, steps = pre ++ ShotAction.handler b :: post →
      takesTimer (runShot shotInit pre) b →
      (ShotAction.push ∉ pre →
        (runShot shotInit (pre ++ [ShotAction.handler b])).timeouts = 1 ∧
        (runShot shotInit (pre ++ [ShotAction.handler b])).pc = ShotPC.returned ∧
        (runShot shotInit (pre ++ [ShotAction.handler b])).bridge = false ∧
        (runShot shotInit (pre ++ [ShotAction.handler b])).event = false ∧
        (runShot shotInit steps).timeouts = 1 ∧ (runShot shotInit steps).finished = false ∧
        (runShot shotInit steps).bridge = false ∧ (runShot shotInit steps).event = false) ∧
      (ShotAction.push ∈ pre →
        (runShot shotInit (pre ++ [ShotAction.handler b])).pc = ShotPC.waitFinish ∧
        (runShot shotInit steps).timeouts = 0 ∧
        ((runShot shotInit steps).pc = ShotPC.returned →
          (runShot shotInit steps).finished = true))) ∧
    (ShotAction.timer ∈ steps → ShotAction.finish ∈ steps → ∀ b1 b2,
      (runShot shotInit (steps ++ [ShotAction.handler b1, ShotAction.handler b2])).pc
        = ShotPC.returned) := by
  have hinv := shotInv_run steps hne
  have hcases : (runShot shotInit steps).pc = ShotPC.returned ∨
      (runShot shotInit steps).pc ≠ ShotPC.returned := Classical.em _
  refine ⟨?_, ?_, ?_, ?_, ?_, ?_⟩
  · rcases hcases with hp | hp
    · rcases (hinv.ended hp).1 with h | h <;> omega
    · have := (hinv.running hp).1; omega
  · rintro ⟨h1, h2⟩
    rcases hcases with hp | hp
    · rcases (hinv.ended hp).1 with h | h
      · rw [h.2.1] at h2; exact absurd h2 (by simp)
      · omega
    · have := (hinv.running hp).1; omega
  · intro hp
    exact (hinv.ended hp).1
  · intro hp
    exact ⟨(hinv.running hp).1, (hinv.running hp).2.1⟩
  · intro pre b post hsteps htake
    have hsplit : noErrorCallback pre ∧ noErrorCallback (ShotAction.handler b :: post) := by
      rw [hsteps] at hne; exact noErrorCallback_append hne
    have hpost : noErrorCallback post := (noErrorCallback_cons hsplit.2).2
    have hpre := shotInv_run pre hsplit.1
    have hzero : (runShot shotInit pre).timeouts = 0 :=
      (hpre.running (by rw [htake.1]; simp)).1
    have hfinal : runShot shotInit steps
        = runShot (stepShot (runShot shotInit pre) (ShotAction.handler b)) post := by
      rw [hsteps, runShot_append, runShot_cons]
    have hmid : runShot shotInit (pre ++ [ShotAction.handler b])
        = stepShot (runShot shotInit pre) (ShotAction.handler b) := by
      rw [runShot_append]; rfl
    constructor
    · intro hnp
      have hcalled := not_called_of_no_push pre shotInit hsplit.1 hnp rfl
      obtain ⟨t1, t2, t3, t4⟩ := stepHandler_timeout _ b htake hcalled hzero
      rw [hmid]
      have hge : 1 ≤ (runShot shotInit steps).timeouts := by
        rw [hfinal]
        exact runShot_preserves_all (fun s => 1 ≤ s.timeouts) timeouts_step post _ (by omega)
      have hrem : (runShot shotInit steps).bridge = false ∧
          (runShot shotInit steps).event = false := by
        rw [hfinal]
        exact runShot_preserves_all (fun s => s.bridge = false ∧ s.event = false)
          removed_step post _ ⟨t3, t4⟩
      have hone : (runShot shotInit steps).timeouts = 1 ∧
          (runShot shotInit steps).finished = false := by
        rcases hcases with hp | hp
        · rcases (hinv.ended hp).1 with h | h
          · exact ⟨h.1, h.2.1⟩
          · omega
        · have := (hinv.running hp).1; omega
      exact ⟨t1, t2, t3, t4, hone.1, hone.2, hrem.1, hrem.2⟩
    · intro hp
      have hcalled := called_of_push pre shotInit hp
      have hstep := stepHandler_wait _ b htake hcalled
      have hkeep : (runShot shotInit steps).called = true ∧
          (runShot shotInit steps).timeouts = 0 := by
        rw [hfinal, hstep]
        exact runShot_preserves (fun s => s.called = true ∧ s.timeouts = 0) pushed_step post _
          hpost ⟨hcalled, hzero⟩
      refine ⟨by rw [hmid, hstep], hkeep.2, fun hret => ?_⟩
      rcases (hinv.ended hret).1 with h | h
      · omega
      · exact h.2
  · intro htimer hfinish b1 b2
    have htm := timer_of_timer steps shotInit htimer
    have hpend := pending_of_finish steps shotInit hne hfinish shotInv_init
    rw [runShot_append]
    generalize runShot shotInit steps = s at hinv htm hpend
    obtain ⟨⟨e1, e2, e3⟩, hrun, hend, hwait⟩ := hinv
    cases hpc : s.pc with
    | returned => simp [runShot, stepShot, stepHandler, hpc]
    | waitFinish =>
      have hf : s.finishSend > 0 := by
        rcases hpend with h | h
        · rw [hpc] at h; exact absurd h (by simp)
        · exact h
      simp [runShot, stepShot, stepHandler, hpc, hf]
    | atSelect =>
      have hf : s.finishSend > 0 := by
        rcases hpend with h | h
        · rw [hpc] at h; exact absurd h (by simp)
        · exact h
      by_cases hb : b1 = true <;> by_cases hcl : s.called = true <;>
        simp [runShot, stepShot, stepHandler, hpc, hf, htm, hb, hcl, closeWait, receiveWait,
          removeEvent, removeBridge]

/-- C10 at concrete orders: the timer case taken before `OnPush` writes the
one gateway-timeout response; taken after `OnPush`, it writes none and the
handler returns having received from `OnFinish`. -/
theorem getScreenshot_outcome_witness :
    ((runShot shotInit [ShotAction.timer, ShotAction.handler true, ShotAction.push,
        ShotAction.finish]).timeouts = 1 ∧
      (runShot shotInit [ShotAction.timer, ShotAction.handler true, ShotAction.push,
        ShotAction.finish]).finished = false) ∧
    ((runShot shotInit [ShotAction.push, ShotAction.timer, ShotAction.handler true,
        ShotAction.finish, ShotAction.handler false]).timeouts = 0 ∧
      (runShot shotInit [ShotAction.push, ShotAction.timer, ShotAction.handler true,
        ShotAction.finish, ShotAction.handler false]).finished = true) := by
  have h1 := getScreenshot_outcome
    [ShotAction.timer, ShotAction.handler true, ShotAction.push, ShotAction.finish]
    (by unfold noErrorCallback; decide)
  have h2 := getScreenshot_outcome
    [ShotAction.push, ShotAction.timer, ShotAction.handler true, ShotAction.finish,
      ShotAction.handler false]
    (by unfold noErrorCallback; decide)
  have a := (h1.2.2.2.2.1 [ShotAction.timer] true [ShotAction.push, ShotAction.finish] rfl
    (by unfold takesTimer; decide)).1 (by decide)
  have b := (h2.2.2.2.2.1 [ShotAction.push, ShotAction.timer] true
    [ShotAction.finish, ShotAction.handler false] rfl (by unfold takesTimer; decide)).2
    (by decide)
  exact ⟨⟨a.2.2.2.2.1, a.2.2.2.2.2.1⟩, ⟨b.2.1, b.2.2 (by decide)⟩⟩

end Spark

